import Mathlib

/-!
Verification of the PDF-Manager object-graph engine
(`src-tauri/src/pdf/{utils,merger,splitter,extractor,rotator,remover}.rs`)
against its natural-language specification.

The embedding mirrors the `lopdf` object model used by the repository:
an `ObjectId` is a `(number, generation)` pair, an `Object` is the tagged
union over null/boolean/integer/real/name/string/array/dictionary/stream/
reference, and a `Document` owns an association list of objects keyed by
identifier, a trailer dictionary and a running `maxId` counter.
-/

/-- `ObjectId` — the `(number, generation)` pair of `lopdf::ObjectId`. -/
abbrev ObjectId := Nat × Nat

/-- The `lopdf::Object` tagged union.  The `real` payload stands in for the
`f32` payload, which none of the graph algorithms inspect; `string` carries
the raw bytes plus a hex/literal tag. -/
inductive PdfObj where
  | null : PdfObj
  | boolean (b : Bool) : PdfObj
  | integer (i : Int) : PdfObj
  | real (r : Int) : PdfObj
  | name (n : String) : PdfObj
  | str (bytes : List Nat) (hex : Bool) : PdfObj
  | array (xs : List PdfObj) : PdfObj
  | dictionary (entries : List (String × PdfObj)) : PdfObj
  | stream (dict : List (String × PdfObj)) (content : List Nat) : PdfObj
  | reference (id : ObjectId) : PdfObj

/-- Association-list lookup (first match), mirroring map lookup. -/
def alookup {α β : Type} [DecidableEq α] (l : List (α × β)) (k : α) : Option β :=
  match l with
  | [] => none
  | (k', v) :: rest => if k' = k then some v else alookup rest k

/-- Association-list insert-or-replace, mirroring `BTreeMap::insert` /
`Dictionary::set`: replaces the first binding of the key, else appends. -/
def aset {α β : Type} [DecidableEq α] (l : List (α × β)) (k : α) (v : β) :
    List (α × β) :=
  match l with
  | [] => [(k, v)]
  | (k', v') :: rest => if k' = k then (k, v) :: rest else (k', v') :: aset rest k v

/-- The `lopdf::Document` container: object graph, trailer, max-id counter. -/
structure Document where
  objects : List (ObjectId × PdfObj)
  trailer : List (String × PdfObj)
  maxId : Nat

/-- `Document::get_object`: look the identifier up in the object map. -/
def Document.get (d : Document) (id : ObjectId) : Option PdfObj :=
  alookup d.objects id

/-- Replace the object stored under `id` (the mutation performed through
`get_object_mut`). -/
def Document.set (d : Document) (id : ObjectId) (o : PdfObj) : Document :=
  { d with objects := aset d.objects id o }

/-- `Document::add_object`: bump `max_id` and insert under `(max_id, 0)`. -/
def Document.addObject (d : Document) (o : PdfObj) : Document × ObjectId :=
  let nid : ObjectId := (d.maxId + 1, 0)
  ({ d with objects := aset d.objects nid o, maxId := d.maxId + 1 }, nid)

/-- `Document::new_object_id`: bump `max_id`, reserving `(max_id, 0)`
without inserting an object. -/
def Document.newObjectId (d : Document) : Document × ObjectId :=
  ({ d with maxId := d.maxId + 1 }, (d.maxId + 1, 0))

mutual

/-- `find_references_recursive` (utils.rs / extractor.rs / merger.rs):
the identifiers of every `Reference` reachable through arrays, dictionary
values and stream dictionary values, in traversal order.  Stream payload
bytes are never scanned. -/
def refList : PdfObj → List ObjectId
  | .reference id => [id]
  | .array xs => refListList xs
  | .dictionary es => refListEntries es
  | .stream es _ => refListEntries es
  | _ => []

def refListList : List PdfObj → List ObjectId
  | [] => []
  | x :: xs => refList x ++ refListList xs

def refListEntries : List (String × PdfObj) → List ObjectId
  | [] => []
  | (_, v) :: es => refList v ++ refListEntries es

end

mutual

/-- The stream payloads of an object, in traversal order (used to state
that the reference rewriter never touches payload bytes). -/
def payloads : PdfObj → List (List Nat)
  | .array xs => payloadsList xs
  | .dictionary es => payloadsEntries es
  | .stream es c => c :: payloadsEntries es
  | _ => []

def payloadsList : List PdfObj → List (List Nat)
  | [] => []
  | x :: xs => payloads x ++ payloadsList xs

def payloadsEntries : List (String × PdfObj) → List (List Nat)
  | [] => []
  | (_, v) :: es => payloads v ++ payloadsEntries es

end

/-- The identifier substitution applied by the rewriter: mapped ids are
replaced, unmapped ids are left untouched. -/
def mapId (m : List (ObjectId × ObjectId)) (id : ObjectId) : ObjectId :=
  (alookup m id).getD id

mutual

/-- `update_references_recursive` (utils.rs / extractor.rs): rewrite every
`Reference` whose identifier is a key of `m` to the mapped identifier,
recursing through arrays, dictionary values and stream dictionary values;
stream payloads are carried over unchanged. -/
def update_references_recursive (m : List (ObjectId × ObjectId)) :
    PdfObj → PdfObj
  | .reference id => .reference (mapId m id)
  | .array xs => .array (updateRefsList m xs)
  | .dictionary es => .dictionary (updateRefsEntries m es)
  | .stream es c => .stream (updateRefsEntries m es) c
  | o => o

def updateRefsList (m : List (ObjectId × ObjectId)) :
    List PdfObj → List PdfObj
  | [] => []
  | x :: xs => update_references_recursive m x :: updateRefsList m xs

def updateRefsEntries (m : List (ObjectId × ObjectId)) :
    List (String × PdfObj) → List (String × PdfObj)
  | [] => []
  | (k, v) :: es => (k, update_references_recursive m v) :: updateRefsEntries m es

end

/-- One step of `find_references_recursive`'s queue/processed discipline:
append each reference that is not yet in the processed set to the back of
the work queue and record it as processed. -/
def enqueueRefs : List ObjectId → List ObjectId → List ObjectId →
    List ObjectId × List ObjectId
  | [], q, p => (q, p)
  | r :: rs, q, p =>
    if r ∈ p then enqueueRefs rs q p else enqueueRefs rs (q ++ [r]) (r :: p)

/-- Pass 1 of the deep copy (`manual_deep_copy` / `merge_and_shift_objects`),
parameterised by the target-identifier allocator: pop the front of the work
queue, skip identifiers already mapped, skip identifiers missing from the
source (with a diagnostic in the code), otherwise enqueue the object's
references and insert a clone under a freshly allocated identifier.  The
fuel argument is the loop counter: the code errors out once the number of
pops exceeds its `max_loops` cap. -/
def copyPass1 (src : Document)
    (alloc : Document → ObjectId → PdfObj → Document × ObjectId)
    (capMsg : String) :
    Nat → Document → List ObjectId → List ObjectId →
    List (ObjectId × ObjectId) →
    Except String (Document × List (ObjectId × ObjectId))
  | _, tgt, [], _, m => .ok (tgt, m)
  | 0, _, _ :: _, _, _ => .error capMsg
  | fuel + 1, tgt, id :: rest, proc, m =>
    if (alookup m id).isSome then copyPass1 src alloc capMsg fuel tgt rest proc m
    else
      match src.get id with
      | none => copyPass1 src alloc capMsg fuel tgt rest proc m
      | some obj =>
        let qp := enqueueRefs (refList obj) rest proc
        let tn := alloc tgt id obj
        copyPass1 src alloc capMsg fuel tn.1 qp.1 qp.2 (aset m id tn.2)

/-- Pass 2 of the deep copy: for every mapped pair, re-fetch the copied
object from the target and rewrite it with `rw`; a mapped object that can
no longer be fetched is a fatal error. -/
def copyPass2 (rw : PdfObj → PdfObj) (msg : String) :
    Document → List (ObjectId × ObjectId) → Except String Document
  | tgt, [] => .ok tgt
  | tgt, (_, nid) :: rest =>
    match tgt.get nid with
    | none => .error msg
    | some obj => copyPass2 rw msg (tgt.set nid (rw obj)) rest

/-- The fresh-allocation strategy of `manual_deep_copy`:
`target_doc.add_object(cloned_object)`. -/
def freshAlloc : Document → ObjectId → PdfObj → Document × ObjectId :=
  fun t _ o => t.addObject o

/-- The offset-shift strategy of `merge_and_shift_objects`: insert the
clone under `(old.number + offset, old.generation)`, the object number
being a `u32` whose addition wraps at `2 ^ 32` in release Rust. -/
def shiftAlloc (off : Nat) : Document → ObjectId → PdfObj → Document × ObjectId :=
  fun t old o =>
    (t.set ((old.1 + off) % 2 ^ 32, old.2) o, ((old.1 + off) % 2 ^ 32, old.2))

/-- `manual_deep_copy` (utils.rs lines 4–72, duplicated in extractor.rs):
breadth-first closure copy with fresh allocation via `add_object`, capped
at `(source object count + root count) * 2` pops, followed by the
reference-rewrite pass over the copied objects. -/
def manual_deep_copy (src tgt : Document) (ids : List ObjectId) :
    Except String (Document × List (ObjectId × ObjectId)) :=
  let maxLoops := (src.objects.length + ids.length) * 2
  match copyPass1 src freshAlloc
      "Deep copy loop exceeded limit" maxLoops tgt ids ids [] with
  | .error e => .error e
  | .ok (tgt1, m) =>
    match copyPass2 (update_references_recursive m)
        "Failed to retrieve copied object during reference update" tgt1 m with
    | .error e => .error e
    | .ok tgt2 => .ok (tgt2, m)

/-- `Dictionary::type_name`-style check used by the merge rewriter:
is this dictionary a page dictionary (`/Type /Page`)? -/
def isPageDict (es : List (String × PdfObj)) : Bool :=
  match alookup es "Type" with
  | some (.name t) => t = "Page"
  | _ => false

mutual

/-- `update_references_recursive_merge` (merger.rs lines 94–140): like the
plain rewriter, but a dictionary (or stream dictionary) whose `Type` is
`Page` first gets its `Parent` entry forced to the target page-tree node,
and that `Parent` entry is excluded from the recursive rewrite. -/
def update_references_recursive_merge (m : List (ObjectId × ObjectId))
    (tpid : ObjectId) : PdfObj → PdfObj
  | .reference id => .reference (mapId m id)
  | .array xs => .array (updMergeList m tpid xs)
  | .dictionary es =>
    let isPage := isPageDict es
    let es' := updMergeEntries m tpid isPage es
    .dictionary (if isPage then aset es' "Parent" (.reference tpid) else es')
  | .stream es c =>
    let isPage := isPageDict es
    let es' := updMergeEntries m tpid isPage es
    .stream (if isPage then aset es' "Parent" (.reference tpid) else es') c
  | o => o

def updMergeList (m : List (ObjectId × ObjectId)) (tpid : ObjectId) :
    List PdfObj → List PdfObj
  | [] => []
  | x :: xs =>
    update_references_recursive_merge m tpid x :: updMergeList m tpid xs

def updMergeEntries (m : List (ObjectId × ObjectId)) (tpid : ObjectId)
    (skipParent : Bool) :
    List (String × PdfObj) → List (String × PdfObj)
  | [] => []
  | (k, v) :: es =>
    (k, if skipParent ∧ k = "Parent" then v
        else update_references_recursive_merge m tpid v) ::
      updMergeEntries m tpid skipParent es

end

/-- First-occurrence deduplication, mirroring the `processed.insert`
guard used when seeding the merge work queue. -/
def firstDedup : List ObjectId → List ObjectId → List ObjectId
  | [], _ => []
  | x :: xs, seen =>
    if x ∈ seen then firstDedup xs seen else x :: firstDedup xs (x :: seen)

/-- The `Type` entry of a dictionary, when it is a name. -/
def dictType (es : List (String × PdfObj)) : Option String :=
  match alookup es "Type" with
  | some (.name t) => some t
  | _ => none

/-- The `Kids` entry of a page-tree dictionary, when it is an array. -/
def kidsArray (es : List (String × PdfObj)) : List PdfObj :=
  match alookup es "Kids" with
  | some (.array xs) => xs
  | _ => []

/-- Models `lopdf`'s page-tree iterator (the storage collaborator of spec
§6): walk a `Kids` array depth-first, descending into `/Type /Pages`
nodes and yielding `/Type /Page` leaves; non-reference kids and kids that
do not resolve to a dictionary are skipped.  The fuel bounds the nesting
depth (the callers pass one more than the object count, enough for any
acyclic tree). -/
def pageList (doc : Document) : Nat → List PdfObj → List ObjectId
  | 0 => fun _ => []
  | fuel + 1 => fun kids =>
    kids.flatMap fun kid =>
      match kid with
      | .reference kidId =>
        match doc.get kidId with
        | some (.dictionary es) =>
          if dictType es = some "Pages" then pageList doc fuel (kidsArray es)
          else if dictType es = some "Page" then [kidId]
          else []
        | _ => []
      | _ => []

/-- Models `lopdf::Document::get_pages` (spec §6): the ordered list of
page object identifiers; page number `n` (1-based) is entry `n - 1`. -/
def getPages (doc : Document) : List ObjectId :=
  match alookup doc.trailer "Root" with
  | some (.reference rid) =>
    match doc.get rid with
    | some (.dictionary cat) =>
      match alookup cat "Pages" with
      | some (.reference pid) =>
        match doc.get pid with
        | some (.dictionary es) =>
          pageList doc (doc.objects.length + 1) (kidsArray es)
        | _ => []
      | _ => []
    | _ => []
  | _ => []

/-- `merge_and_shift_objects` (merger.rs lines 11–73): seed the queue with
the source's pages (deduplicated through the processed set), deep-copy the
closure inserting each object under `(old.number + offset, old.generation)`,
cap the loop at `source object count * 2 + 10` pops, then run the merge
rewrite pass over the copied objects. -/
def merge_and_shift_objects (tgt src : Document) (idOffset : Nat)
    (targetPagesId : ObjectId) :
    Except String (Document × List (ObjectId × ObjectId)) :=
  let roots := firstDedup (getPages src) []
  let maxLoops := src.objects.length * 2 + 10
  match copyPass1 src (shiftAlloc idOffset)
      "Deep copy loop exceeded limit for merge" maxLoops tgt roots roots [] with
  | .error e => .error e
  | .ok (tgt1, m) =>
    match copyPass2 (update_references_recursive_merge m targetPagesId)
        "Failed to retrieve copied object during merge reference update"
        tgt1 m with
    | .error e => .error e
    | .ok tgt2 => .ok (tgt2, m)

/-- `Document::with_version`: a brand-new empty document. -/
def emptyDoc : Document := { objects := [], trailer := [], maxId := 0 }

/-- `extract_pdf_page` (extractor.rs lines 154–289), after the filesystem
steps: validate the 1-based page number, resolve the page identifier,
reserve identifiers for the new page-tree node and catalog, deep-copy the
page's closure, patch the copied page's `Parent`, build the one-child
tree node, the catalog and the trailer `Root`.  (`Document::load`,
`compress` and `save` are the storage collaborator of spec §6 and stay
outside the embedding; an `.ok` result is the document handed to `save`.) -/
def extract_pdf_page_core (doc : Document) (pageNumber : Nat) :
    Except String Document :=
  if pageNumber = 0 then
    .error "Page number must be 1-based (greater than 0)."
  else
    match (getPages doc).get? (pageNumber - 1) with
    | none => .error "Page number not found in document."
    | some targetPageId =>
      let d1 := emptyDoc.newObjectId
      let newPagesId := d1.2
      let d2 := d1.1.newObjectId
      let newCatalogId := d2.2
      match manual_deep_copy doc d2.1 [targetPageId] with
      | .error e => .error e
      | .ok (d3, m) =>
        match alookup m targetPageId with
        | none => .error "Internal error: Copied page ObjectId not found in mapping."
        | some newPageId =>
          match d3.get newPageId with
          | some (.dictionary es) =>
            let d4 := d3.set newPageId
              (.dictionary (aset es "Parent" (.reference newPagesId)))
            let d5 := d4.set newPagesId (.dictionary
              [("Type", .name "Pages"),
               ("Kids", .array [.reference newPageId]),
               ("Count", .integer 1)])
            let d6 := d5.set newCatalogId (.dictionary
              [("Type", .name "Catalog"), ("Pages", .reference newPagesId)])
            .ok { d6 with trailer := aset d6.trailer "Root" (.reference newCatalogId) }
          | some _ => .error "Internal error: Copied page object is not a dictionary."
          | none => .error "Failed to retrieve copied page object to update Parent"

/-- The page-number resolution loop of `split_pdf` (splitter.rs lines
31–49): reject page number 0; resolve each requested number through the
page map, failing on the first number that is not present. -/
def resolvePages (pagesMap : List ObjectId) : List Nat →
    Except String (List ObjectId)
  | [] => .ok []
  | p :: ps =>
    if p = 0 then
      .error "Invalid page number: page numbers must be 1-based."
    else
      match pagesMap.get? (p - 1) with
      | none => .error "Page number not found in document."
      | some id =>
        match resolvePages pagesMap ps with
        | .error e => .error e
        | .ok ids => .ok (id :: ids)

/-- The Kids-building loop of `split_pdf` (splitter.rs lines 74–105): for
each requested (old) page identifier, in request order, look up its new
identifier in the mapping (an absence is a fatal internal error), append a
reference to it to the Kids array, and patch the copied page's `Parent`. -/
def buildKids (m : List (ObjectId × ObjectId)) (newPagesId : ObjectId) :
    Document → List ObjectId → Except String (Document × List PdfObj)
  | d, [] => .ok (d, [])
  | d, old :: rest =>
    match alookup m old with
    | none => .error "Internal error: Copied page ObjectId not found in mapping."
    | some nid =>
      match d.get nid with
      | some (.dictionary es) =>
        match buildKids m newPagesId
            (d.set nid (.dictionary (aset es "Parent" (.reference newPagesId))))
            rest with
        | .error e => .error e
        | .ok (d2, kids) => .ok (d2, .reference nid :: kids)
      | some _ => .error "Internal error: Copied page object is not a dictionary."
      | none => .error "Failed to retrieve copied page object to update Parent"

/-- `split_pdf` (splitter.rs lines 8–134), after the filesystem steps:
reject an empty request list, resolve every requested page number,
deep-copy the closure of all requested pages, build the Kids array in
request order while re-parenting each copied page, then assemble the tree
node (Count = request length), catalog and trailer. -/
def split_pdf_core (doc : Document) (pages : List Nat) :
    Except String Document :=
  if pages = [] then
    .error "The list of pages to extract cannot be empty."
  else
    match resolvePages (getPages doc) pages with
    | .error e => .error e
    | .ok pageIds =>
      let d1 := emptyDoc.newObjectId
      let newPagesId := d1.2
      let d2 := d1.1.newObjectId
      let newCatalogId := d2.2
      match manual_deep_copy doc d2.1 pageIds with
      | .error e => .error e
      | .ok (d3, m) =>
        match buildKids m newPagesId d3 pageIds with
        | .error e => .error e
        | .ok (d4, newKids) =>
          let d5 := d4.set newPagesId (.dictionary
            [("Type", .name "Pages"),
             ("Kids", .array newKids),
             ("Count", .integer pages.length)])
          let d6 := d5.set newCatalogId (.dictionary
            [("Type", .name "Catalog"), ("Pages", .reference newPagesId)])
          .ok { d6 with trailer := aset d6.trailer "Root" (.reference newCatalogId) }

/-- The trailer→catalog→`Pages` resolution of merger.rs lines 206–212:
the identifier of the first document's root page-tree node. -/
def rootPagesRef (doc : Document) : Option ObjectId :=
  match alookup doc.trailer "Root" with
  | some (.reference rid) =>
    match doc.get rid with
    | some (.dictionary cat) =>
      match alookup cat "Pages" with
      | some (.reference pid) => some pid
      | _ => none
    | _ => none
  | _ => none

/-- The new-Kids collection loop of `merge_pdfs` (merger.rs lines
236–246): each page of the source document must have been mapped, in page
order; an unmapped page is a fatal internal error. -/
def collectNewKids (m : List (ObjectId × ObjectId)) : List ObjectId →
    Except String (List PdfObj)
  | [] => .ok []
  | pid :: ps =>
    match alookup m pid with
    | none => .error "Internal error: page was not found in the merged object map."
    | some nid =>
      match collectNewKids m ps with
      | .error e => .error e
      | .ok kids => .ok (.reference nid :: kids)

/-- The per-source-document loop of `merge_pdfs` (merger.rs lines
220–247): shift-copy each subsequent document into the target using the
running max-id counter as offset, advance the counter by the source's
max-id (`current_max_id += source_max_id` on `u32`, wrapping at
`2 ^ 32` in release Rust), and accumulate references to the copied
pages. -/
def mergeLoop (tpid : ObjectId) :
    Document → Nat → List PdfObj → List Document →
    Except String (Document × Nat × List PdfObj)
  | tgt, curMax, kids, [] => .ok (tgt, curMax, kids)
  | tgt, curMax, kids, src :: rest =>
    match merge_and_shift_objects tgt src curMax tpid with
    | .error e => .error e
    | .ok (tgt', m) =>
      match collectNewKids m (getPages src) with
      | .error e => .error e
      | .ok newRefs =>
        mergeLoop tpid tgt' ((curMax + src.maxId) % 2 ^ 32) (kids ++ newRefs) rest

/-- `merge_pdfs` (merger.rs lines 200–292) on two or more already-loaded
documents: resolve the first document's root tree node, fold the
subsequent documents in with `mergeLoop`, set the final max-id counter,
extend the root node's Kids with the collected page references and set its
Count to the final Kids length. -/
def merge_many_core (first : Document) (rest : List Document) :
    Except String Document :=
  match rootPagesRef first with
  | none => .error "Failed to get Pages entry from catalog."
  | some tpid =>
    match mergeLoop tpid first first.maxId [] rest with
    | .error e => .error e
    | .ok (tgt, curMax, newKids) =>
      let tgt1 : Document := { tgt with maxId := curMax }
      match tgt1.get tpid with
      | some (.dictionary es) =>
        match alookup es "Kids" with
        | some (.array kids) =>
          let finalKids := kids ++ newKids
          .ok (tgt1.set tpid (.dictionary
            (aset (aset es "Kids" (.array finalKids))
              "Count" (.integer finalKids.length))))
        | _ => .error "Final Pages Kids object is not an array"
      | _ => .error "Failed to get mutable Pages object for final update"

/-- What `merge_pdfs` produces at the output path: a byte-for-byte copy
of the single input, or a merged document handed to `save`. -/
inductive MergeOutcome where
  | copiedBytes (bytes : List Nat)
  | mergedDoc (doc : Document)

/-- `merge_pdfs` (merger.rs lines 146–292) at the dispatch level, with
`Document::load` abstracted as the storage collaborator `load` over the
input files' bytes (the inputs are the contents of the existing regular
files named by `paths`): an empty path list is an error; exactly one path
short-circuits to `fs::copy`, a byte-level copy of the source file with no
parsing or graph surgery; two or more paths load every document and run
the structural merge. -/
def merge_pdfs_model (load : List Nat → Except String Document) :
    List (List Nat) → Except String MergeOutcome
  | [] => .error "No PDF files provided for merging."
  | [b] => .ok (.copiedBytes b)
  | b :: rest =>
    match load b with
    | .error e => .error e
    | .ok first =>
      match rest.mapM load with
      | .error e => .error e
      | .ok docs =>
        match merge_many_core first docs with
        | .error e => .error e
        | .ok doc => .ok (.mergedDoc doc)

/-- Truncated remainder: the semantics of Rust's `%` on `i32`. -/
def rustRem (a n : Int) : Int := Int.tmod a n

/-- The value of a Rust `as i32` cast of an `i64` (two's-complement
wrap-around). -/
def wrapI32 (v : Int) : Int := (v + 2 ^ 31) % 2 ^ 32 - 2 ^ 31

/-- The per-page mutation of `rotate_pdf` (rotator.rs lines 50–57): read
the current `Rotate` value (0 when absent or not an integer, cast to
`i32`), add the angle and store the `i32` remainder modulo 360. -/
def newRotationValue (current rotation : Int) : Int :=
  rustRem (wrapI32 (wrapI32 current + rotation)) 360

/-- The stored `Rotate` value read by rotator.rs lines 50–53. -/
def currentRotation (es : List (String × PdfObj)) : Int :=
  match alookup es "Rotate" with
  | some (.integer i) => i
  | _ => 0

/-- The page-mutation loop of `rotate_pdf` (rotator.rs lines 45–58). -/
def rotateLoop (rotation : Int) : Document → List ObjectId →
    Except String Document
  | d, [] => .ok d
  | d, pid :: rest =>
    match d.get pid with
    | some (.dictionary es) =>
      rotateLoop rotation
        (d.set pid (.dictionary (aset es "Rotate"
          (.integer (newRotationValue (currentRotation es) rotation)))))
        rest
    | _ => .error "Failed to get page dictionary for page"

/-- The resolution loop inside `rotate_pdf` for an explicit page list:
every requested number must resolve through the page map (a map keyed by
the 1-based page numbers, so 0 and out-of-range numbers both miss). -/
def resolveRotatePages (pagesMap : List ObjectId) : List Nat →
    Except String (List ObjectId)
  | [] => .ok []
  | p :: ps =>
    match (if p = 0 then none else pagesMap.get? (p - 1)) with
    | none => .error "Page not found in document."
    | some id =>
      match resolveRotatePages pagesMap ps with
      | .error e => .error e
      | .ok ids => .ok (id :: ids)

/-- `rotate_pdf` (rotator.rs lines 6–64), after the filesystem steps:
reject any angle outside `{0, ±90, ±180, ±270}`, resolve the targeted
pages (an empty request list means all pages), then update each page's
`Rotate` entry. -/
def rotate_pdf_core (doc : Document) (pages : List Nat) (rotation : Int) :
    Except String Document :=
  if rotation = 0 ∨ rotation = 90 ∨ rotation = 180 ∨ rotation = 270 ∨
      rotation = -90 ∨ rotation = -180 ∨ rotation = -270 then
    let pagesMap := getPages doc
    match (if pages = [] then .ok pagesMap
           else resolveRotatePages pagesMap pages) with
    | .error e => .error e
    | .ok targets => rotateLoop rotation doc targets
  else
    .error "Invalid rotation angle. Must be one of 0, 90, 180, 270."

/-- The validation loop of `delete_pages` (remover.rs lines 32–41):
every requested number must lie in `[1, page_count]`. -/
def validateDeletePages (pageCount : Nat) : List Nat → Except String Unit
  | [] => .ok ()
  | p :: ps =>
    if p = 0 ∨ pageCount < p then
      .error "Invalid page number: page numbers must be between 1 and the page count."
    else validateDeletePages pageCount ps

/-- `delete_pages` (remover.rs lines 7–50), after the filesystem steps:
reject an empty request list, then validate every page number against the
document's page count before any mutation.  The actual page removal and
save are performed by the storage collaborator (`lopdf`'s `delete_pages`
and `save`); an `.ok` result means validation passed and the pipeline
proceeds to them. -/
def delete_pages_core (doc : Document) (pagesToDelete : List Nat) :
    Except String Unit :=
  if pagesToDelete = [] then
    .error "The list of pages to delete cannot be empty."
  else
    validateDeletePages (getPages doc).length pagesToDelete

/-! ### Association-list lemmas -/

theorem alookup_aset_self {α β : Type} [DecidableEq α]
    (l : List (α × β)) (k : α) (v : β) : alookup (aset l k v) k = some v := by
  induction l with
  | nil => simp [aset, alookup]
  | cons hd tl ih =>
    by_cases h : hd.1 = k <;> simp [aset, alookup, h, ih]

theorem alookup_aset_ne {α β : Type} [DecidableEq α]
    (l : List (α × β)) (k k' : α) (v : β) (h : k ≠ k') :
    alookup (aset l k v) k' = alookup l k' := by
  induction l with
  | nil => simp [aset, alookup, h]
  | cons hd tl ih =>
    by_cases hk : hd.1 = k
    · simp [aset, alookup, hk, h]
    · simp [aset, alookup, hk, ih]

theorem mem_aset {α β : Type} [DecidableEq α]
    (l : List (α × β)) (k : α) (v : β) (e : α × β) (h : e ∈ aset l k v) :
    e = (k, v) ∨ e ∈ l := by
  induction l with
  | nil => simpa [aset] using h
  | cons hd tl ih =>
    obtain ⟨a, b⟩ := hd
    by_cases hk : a = k
    · rw [show aset ((a, b) :: tl) k v = (k, v) :: tl by simp [aset, hk]] at h
      rcases List.mem_cons.1 h with h | h
      · exact .inl h
      · exact .inr (List.mem_cons_of_mem _ h)
    · rw [show aset ((a, b) :: tl) k v = (a, b) :: aset tl k v by
        simp [aset, hk]] at h
      rcases List.mem_cons.1 h with h | h
      · exact .inr (by rw [h]; exact List.mem_cons_self _ _)
      · rcases ih h with h' | h'
        · exact .inl h'
        · exact .inr (List.mem_cons_of_mem _ h')

theorem mem_of_alookup {α β : Type} [DecidableEq α]
    (l : List (α × β)) (k : α) (v : β) (h : alookup l k = some v) : (k, v) ∈ l := by
  induction l with
  | nil => simp [alookup] at h
  | cons hd tl ih =>
    obtain ⟨a, b⟩ := hd
    by_cases hk : a = k
    · subst hk
      have hb : b = v := by simpa [alookup] using h
      subst hb
      exact List.mem_cons_self _ _
    · simp only [alookup, if_neg hk] at h
      exact List.mem_cons_of_mem _ (ih h)

theorem alookup_isSome_of_mem {α β : Type} [DecidableEq α]
    (l : List (α × β)) (e : α × β) (h : e ∈ l) : (alookup l e.1).isSome := by
  induction l with
  | nil => simp at h
  | cons hd tl ih =>
    rcases List.mem_cons.1 h with h | h
    · subst h; simp [alookup]
    · by_cases hk : hd.1 = e.1 <;> simp [alookup, hk, ih h]

theorem alookup_none_not_mem {α β : Type} [DecidableEq α]
    (l : List (α × β)) (k : α) (h : alookup l k = none) (v : β) : (k, v) ∉ l := by
  intro hm
  have := alookup_isSome_of_mem l (k, v) hm
  simp [h] at this

/-- Keys of `aset l k v`: the old keys plus `k`. -/
theorem keys_aset {α β : Type} [DecidableEq α]
    (l : List (α × β)) (k : α) (v : β) (x : α)
    (h : x ∈ (aset l k v).map (·.1)) : x = k ∨ x ∈ l.map (·.1) := by
  rcases List.mem_map.1 h with ⟨e, he, hx⟩
  rcases mem_aset l k v e he with h' | h'
  · left; rw [← hx, h']
  · right; exact List.mem_map.2 ⟨e, h', hx⟩

theorem alookup_aset_isSome_mono {α β : Type} [DecidableEq α]
    (l : List (α × β)) (k k' : α) (v : β) (h : (alookup l k).isSome) :
    (alookup (aset l k' v) k).isSome := by
  by_cases hk : k' = k
  · subst hk; simp [alookup_aset_self]
  · rw [alookup_aset_ne l k' k v hk]; exact h

theorem mem_keys_of_alookup_isSome {α β : Type} [DecidableEq α]
    (l : List (α × β)) (k : α) (h : (alookup l k).isSome) : k ∈ l.map (·.1) := by
  induction l with
  | nil => simp [alookup] at h
  | cons hd tl ih =>
    by_cases hk : hd.1 = k
    · simp [hk.symm]
    · simp only [alookup, if_neg hk] at h
      simp [ih h]

theorem alookup_isSome_of_mem_keys {α β : Type} [DecidableEq α]
    (l : List (α × β)) (k : α) (h : k ∈ l.map (·.1)) : (alookup l k).isSome := by
  rcases List.mem_map.1 h with ⟨e, he, hk⟩
  rw [← hk]
  exact alookup_isSome_of_mem l e he

theorem aset_of_alookup_none {α β : Type} [DecidableEq α]
    (l : List (α × β)) (k : α) (v : β) (h : alookup l k = none) :
    aset l k v = l ++ [(k, v)] := by
  induction l with
  | nil => simp [aset]
  | cons hd tl ih =>
    by_cases hk : hd.1 = k
    · simp [alookup, hk] at h
    · simp only [alookup, if_neg hk] at h
      obtain ⟨a, b⟩ := hd
      simp only [aset, if_neg hk, ih h, List.cons_append]

/-! ### Characterisation of the reference rewriter -/

mutual

theorem refList_update (m : List (ObjectId × ObjectId)) :
    ∀ o, refList (update_references_recursive m o) = (refList o).map (mapId m)
  | .null => rfl
  | .boolean _ => rfl
  | .integer _ => rfl
  | .real _ => rfl
  | .name _ => rfl
  | .str _ _ => rfl
  | .reference _ => rfl
  | .array xs => by
    simp only [update_references_recursive, refList, refListList_update m xs]
  | .dictionary es => by
    simp only [update_references_recursive, refList, refListEntries_update m es]
  | .stream es c => by
    simp only [update_references_recursive, refList, refListEntries_update m es]

theorem refListList_update (m : List (ObjectId × ObjectId)) :
    ∀ xs, refListList (updateRefsList m xs) = (refListList xs).map (mapId m)
  | [] => rfl
  | x :: xs => by
    simp only [updateRefsList, refListList, refList_update m x,
      refListList_update m xs, List.map_append]

theorem refListEntries_update (m : List (ObjectId × ObjectId)) :
    ∀ es, refListEntries (updateRefsEntries m es) = (refListEntries es).map (mapId m)
  | [] => rfl
  | (k, v) :: es => by
    simp only [updateRefsEntries, refListEntries, refList_update m v,
      refListEntries_update m es, List.map_append]

end

mutual

theorem payloads_update (m : List (ObjectId × ObjectId)) :
    ∀ o, payloads (update_references_recursive m o) = payloads o
  | .null => rfl
  | .boolean _ => rfl
  | .integer _ => rfl
  | .real _ => rfl
  | .name _ => rfl
  | .str _ _ => rfl
  | .reference _ => rfl
  | .array xs => by
    simp only [update_references_recursive, payloads, payloadsList_update m xs]
  | .dictionary es => by
    simp only [update_references_recursive, payloads, payloadsEntries_update m es]
  | .stream es c => by
    simp only [update_references_recursive, payloads, payloadsEntries_update m es]

theorem payloadsList_update (m : List (ObjectId × ObjectId)) :
    ∀ xs, payloadsList (updateRefsList m xs) = payloadsList xs
  | [] => rfl
  | x :: xs => by
    simp only [updateRefsList, payloadsList, payloads_update m x,
      payloadsList_update m xs]

theorem payloadsEntries_update (m : List (ObjectId × ObjectId)) :
    ∀ es, payloadsEntries (updateRefsEntries m es) = payloadsEntries es
  | [] => rfl
  | (k, v) :: es => by
    simp only [updateRefsEntries, payloadsEntries, payloads_update m v,
      payloadsEntries_update m es]

end

/-- A dictionary value after the plain rewrite: same keys, rewritten
values. -/
theorem alookup_updateRefsEntries (m : List (ObjectId × ObjectId))
    (es : List (String × PdfObj)) (k : String) :
    alookup (updateRefsEntries m es) k =
      (alookup es k).map (update_references_recursive m) := by
  induction es with
  | nil => simp [updateRefsEntries, alookup]
  | cons hd tl ih =>
    obtain ⟨k', v⟩ := hd
    by_cases hk : k' = k <;> simp [updateRefsEntries, alookup, hk, ih]

/-- A dictionary value after the merge rewrite (before the `Parent`
forcing): same keys; the value is rewritten except at a skipped `Parent`. -/
theorem alookup_updMergeEntries (m : List (ObjectId × ObjectId))
    (tpid : ObjectId) (skip : Bool) (es : List (String × PdfObj)) (k : String) :
    alookup (updMergeEntries m tpid skip es) k =
      (alookup es k).map (fun v =>
        if skip ∧ k = "Parent" then v
        else update_references_recursive_merge m tpid v) := by
  induction es with
  | nil => simp [updMergeEntries, alookup]
  | cons hd tl ih =>
    obtain ⟨k', v⟩ := hd
    by_cases hk : k' = k
    · subst hk
      simp [updMergeEntries, alookup]
    · simp [updMergeEntries, alookup, hk, ih]

/-- Membership in the reference list of a dictionary comes from one of
its entries. -/
theorem refListEntries_mem (es : List (String × PdfObj)) (r : ObjectId)
    (h : r ∈ refListEntries es) : ∃ e ∈ es, r ∈ refList e.2 := by
  induction es with
  | nil => simp [refListEntries] at h
  | cons hd tl ih =>
    obtain ⟨k, v⟩ := hd
    simp only [refListEntries, List.mem_append] at h
    rcases h with h | h
    · exact ⟨(k, v), List.mem_cons_self _ _, h⟩
    · rcases ih h with ⟨e, he, hr⟩
      exact ⟨e, List.mem_cons_of_mem _ he, hr⟩

/-! ### Work-queue discipline lemmas -/

theorem enqueueRefs_proc_mono (rs : List ObjectId) (q p : List ObjectId) :
    ∀ x ∈ p, x ∈ (enqueueRefs rs q p).2 := by
  induction rs generalizing q p with
  | nil => intro x hx; simpa [enqueueRefs] using hx
  | cons r rs ih =>
    intro x hx
    by_cases h : r ∈ p
    · simpa [enqueueRefs, h] using ih q p x hx
    · simpa [enqueueRefs, h] using ih (q ++ [r]) (r :: p) x (List.mem_cons_of_mem _ hx)

theorem enqueueRefs_queue_mono (rs : List ObjectId) (q p : List ObjectId) :
    ∀ x ∈ q, x ∈ (enqueueRefs rs q p).1 := by
  induction rs generalizing q p with
  | nil => intro x hx; simpa [enqueueRefs] using hx
  | cons r rs ih =>
    intro x hx
    by_cases h : r ∈ p
    · simpa [enqueueRefs, h] using ih q p x hx
    · simpa [enqueueRefs, h] using
        ih (q ++ [r]) (r :: p) x (List.mem_append_left _ hx)

theorem enqueueRefs_refs_processed (rs : List ObjectId) (q p : List ObjectId) :
    ∀ r ∈ rs, r ∈ (enqueueRefs rs q p).2 := by
  induction rs generalizing q p with
  | nil => intro r hr; simp at hr
  | cons r₀ rs ih =>
    intro r hr
    rcases List.mem_cons.1 hr with h | h
    · subst h
      by_cases hp : r ∈ p
      · simpa [enqueueRefs, hp] using enqueueRefs_proc_mono rs q p r hp
      · simpa [enqueueRefs, hp] using
          enqueueRefs_proc_mono rs (q ++ [r]) (r :: p) r (List.mem_cons_self _ _)
    · by_cases hp : r₀ ∈ p
      · simpa [enqueueRefs, hp] using ih q p r h
      · simpa [enqueueRefs, hp] using ih (q ++ [r₀]) (r₀ :: p) r h

theorem enqueueRefs_proc_src (rs : List ObjectId) (q p : List ObjectId) :
    ∀ x ∈ (enqueueRefs rs q p).2, x ∈ p ∨ x ∈ (enqueueRefs rs q p).1 := by
  induction rs generalizing q p with
  | nil => intro x hx; left; simpa [enqueueRefs] using hx
  | cons r rs ih =>
    intro x hx
    by_cases h : r ∈ p
    · simpa [enqueueRefs, h] using ih q p x (by simpa [enqueueRefs, h] using hx)
    · simp only [enqueueRefs, if_neg h] at hx ⊢
      rcases ih (q ++ [r]) (r :: p) x hx with h' | h'
      · rcases List.mem_cons.1 h' with h'' | h''
        · right
          rw [h'']
          exact enqueueRefs_queue_mono rs (q ++ [r]) (r :: p) r
            (List.mem_append_right _ (List.mem_singleton.2 rfl))
        · exact .inl h''
      · exact .inr h'

theorem enqueueRefs_queue_src (rs : List ObjectId) (q p : List ObjectId) :
    ∀ x ∈ (enqueueRefs rs q p).1, x ∈ q ∨ x ∈ (enqueueRefs rs q p).2 := by
  induction rs generalizing q p with
  | nil => intro x hx; left; simpa [enqueueRefs] using hx
  | cons r rs ih =>
    intro x hx
    by_cases h : r ∈ p
    · simpa [enqueueRefs, h] using ih q p x (by simpa [enqueueRefs, h] using hx)
    · simp only [enqueueRefs, if_neg h] at hx ⊢
      rcases ih (q ++ [r]) (r :: p) x hx with h' | h'
      · rcases List.mem_append.1 h' with h'' | h''
        · exact .inl h''
        · right
          have hxr : x = r := List.mem_singleton.1 h''
          rw [hxr]
          exact enqueueRefs_proc_mono rs (q ++ [r]) (r :: p) r (List.mem_cons_self _ _)
      · exact .inr h'

/-! ### Pass-1 invariants -/

/-- An identifier is settled after pass 1 when it is either mapped or
absent from the source (the skipped-with-a-diagnostic case). -/
def mappedOrMissing (src : Document) (m : List (ObjectId × ObjectId))
    (id : ObjectId) : Prop :=
  (alookup m id).isSome ∨ src.get id = none

/-- The breadth-first closure invariant of pass 1: on success, every
processed identifier is either mapped or missing from the source, and
every reference of every copied object's source original is either mapped
or missing from the source. -/
theorem copyPass1_closure (src : Document)
    (alloc : Document → ObjectId → PdfObj → Document × ObjectId)
    (capMsg : String) :
    ∀ fuel tgt queue proc m tgt' m',
      copyPass1 src alloc capMsg fuel tgt queue proc m = .ok (tgt', m') →
      (∀ id ∈ queue, id ∈ proc) →
      (∀ id ∈ proc, id ∈ queue ∨ (alookup m id).isSome ∨ src.get id = none) →
      (∀ k obj, (alookup m k).isSome → src.get k = some obj →
        ∀ r ∈ refList obj, r ∈ proc) →
      (∀ id ∈ proc, mappedOrMissing src m' id) ∧
      (∀ k obj, (alookup m' k).isSome → src.get k = some obj →
        ∀ r ∈ refList obj, mappedOrMissing src m' r) := by
  intro fuel
  induction fuel with
  | zero =>
    intro tgt queue proc m tgt' m' h hq h1 h2
    match queue, h1 with
    | [], h1 =>
      simp only [copyPass1, Except.ok.injEq, Prod.mk.injEq] at h
      obtain ⟨-, rfl⟩ := h
      constructor
      · intro id hid
        rcases h1 id hid with h' | h' | h'
        · simp at h'
        · exact .inl h'
        · exact .inr h'
      · intro k obj hk hobj r hr
        have := h2 k obj hk hobj r hr
        rcases h1 r this with h' | h' | h'
        · simp at h'
        · exact .inl h'
        · exact .inr h'
    | id₀ :: rest, _ => simp [copyPass1] at h
  | succ fuel ih =>
    intro tgt queue proc m tgt' m' h hq h1 h2
    match queue, hq, h1 with
    | [], hq, h1 =>
      simp only [copyPass1, Except.ok.injEq, Prod.mk.injEq] at h
      obtain ⟨-, rfl⟩ := h
      constructor
      · intro id hid
        rcases h1 id hid with h' | h' | h'
        · simp at h'
        · exact .inl h'
        · exact .inr h'
      · intro k obj hk hobj r hr
        have := h2 k obj hk hobj r hr
        rcases h1 r this with h' | h' | h'
        · simp at h'
        · exact .inl h'
        · exact .inr h'
    | id₀ :: rest, hq, h1 =>
      simp only [copyPass1] at h
      by_cases hm : (alookup m id₀).isSome
      · rw [if_pos hm] at h
        refine ih tgt rest proc m tgt' m' h
          (fun id hid => hq id (List.mem_cons_of_mem _ hid)) ?_ h2
        intro id hid
        rcases h1 id hid with h' | h' | h'
        · rcases List.mem_cons.1 h' with h'' | h''
          · exact .inr (.inl (h'' ▸ hm))
          · exact .inl h''
        · exact .inr (.inl h')
        · exact .inr (.inr h')
      · rw [if_neg hm] at h
        cases hsrc : src.get id₀ with
        | none =>
          rw [hsrc] at h
          refine ih tgt rest proc m tgt' m' h
            (fun id hid => hq id (List.mem_cons_of_mem _ hid)) ?_ h2
          intro id hid
          rcases h1 id hid with h' | h' | h'
          · rcases List.mem_cons.1 h' with h'' | h''
            · exact .inr (.inr (h'' ▸ hsrc))
            · exact .inl h''
          · exact .inr (.inl h')
          · exact .inr (.inr h')
        | some obj₀ =>
          rw [hsrc] at h
          simp only at h
          set qp := enqueueRefs (refList obj₀) rest proc with hqp
          set tn := alloc tgt id₀ obj₀ with htn
          have hmain := ih tn.1 qp.1 qp.2 (aset m id₀ tn.2) tgt' m' h
            ?_ ?_ ?_
          · refine ⟨?_, hmain.2⟩
            intro id hid
            exact hmain.1 id (enqueueRefs_proc_mono (refList obj₀) rest proc id hid)
          · -- queue ⊆ processed
            intro id hid
            rcases enqueueRefs_queue_src (refList obj₀) rest proc id hid with h' | h'
            · exact enqueueRefs_proc_mono (refList obj₀) rest proc id
                (hq id (List.mem_cons_of_mem _ h'))
            · exact h'
          · -- every processed id is queued, mapped or missing
            intro id hid
            rcases enqueueRefs_proc_src (refList obj₀) rest proc id hid with h' | h'
            · rcases h1 id h' with h'' | h'' | h''
              · rcases List.mem_cons.1 h'' with h₃ | h₃
                · subst h₃
                  exact .inr (.inl (by simp [alookup_aset_self]))
                · exact .inl (enqueueRefs_queue_mono (refList obj₀) rest proc id h₃)
              · exact .inr (.inl (alookup_aset_isSome_mono m id id₀ tn.2 h''))
              · exact .inr (.inr h'')
            · exact .inl h'
          · -- refs of every mapped object are processed
            intro k obj hk hobj r hr
            by_cases hkid : k = id₀
            · subst hkid
              rw [hsrc] at hobj
              cases hobj
              exact enqueueRefs_refs_processed (refList obj₀) rest proc r hr
            · rw [alookup_aset_ne m id₀ k tn.2 (fun he => hkid he.symm)] at hk
              exact enqueueRefs_proc_mono (refList obj₀) rest proc r
                (h2 k obj hk hobj r hr)

/-- Keys of the mapping produced by pass 1 come from identifiers present
in the source (or pre-existing bindings): an identifier missing from the
source is never mapped. -/
theorem copyPass1_srcOnly (src : Document)
    (alloc : Document → ObjectId → PdfObj → Document × ObjectId)
    (capMsg : String) :
    ∀ fuel tgt queue proc m tgt' m',
      copyPass1 src alloc capMsg fuel tgt queue proc m = .ok (tgt', m') →
      ∀ k, (alookup m' k).isSome → (alookup m k).isSome ∨ (src.get k).isSome := by
  intro fuel
  induction fuel with
  | zero =>
    intro tgt queue proc m tgt' m' h k hk
    match queue with
    | [] =>
      simp only [copyPass1, Except.ok.injEq, Prod.mk.injEq] at h
      obtain ⟨-, rfl⟩ := h
      exact .inl hk
    | _ :: _ => simp [copyPass1] at h
  | succ fuel ih =>
    intro tgt queue proc m tgt' m' h k hk
    match queue with
    | [] =>
      simp only [copyPass1, Except.ok.injEq, Prod.mk.injEq] at h
      obtain ⟨-, rfl⟩ := h
      exact .inl hk
    | id₀ :: rest =>
      simp only [copyPass1] at h
      by_cases hm : (alookup m id₀).isSome
      · rw [if_pos hm] at h
        exact ih _ _ _ _ _ _ h k hk
      · rw [if_neg hm] at h
        cases hsrc : src.get id₀ with
        | none =>
          rw [hsrc] at h
          exact ih _ _ _ _ _ _ h k hk
        | some obj₀ =>
          rw [hsrc] at h
          simp only at h
          rcases ih _ _ _ _ _ _ h k hk with h' | h'
          · by_cases hkid : id₀ = k
            · subst hkid
              exact .inr (by simp [hsrc])
            · rw [alookup_aset_ne m id₀ k _ hkid] at h'
              exact .inl h'
          · exact .inr h'

/-- Pass 1 maps each identifier at most once: the mapping's keys stay
duplicate-free. -/
theorem copyPass1_nodup_keys (src : Document)
    (alloc : Document → ObjectId → PdfObj → Document × ObjectId)
    (capMsg : String) :
    ∀ fuel tgt queue proc m tgt' m',
      copyPass1 src alloc capMsg fuel tgt queue proc m = .ok (tgt', m') →
      (m.map (·.1)).Nodup → (m'.map (·.1)).Nodup := by
  intro fuel
  induction fuel with
  | zero =>
    intro tgt queue proc m tgt' m' h hm
    match queue with
    | [] =>
      simp only [copyPass1, Except.ok.injEq, Prod.mk.injEq] at h
      obtain ⟨-, rfl⟩ := h
      exact hm
    | _ :: _ => simp [copyPass1] at h
  | succ fuel ih =>
    intro tgt queue proc m tgt' m' h hm
    match queue with
    | [] =>
      simp only [copyPass1, Except.ok.injEq, Prod.mk.injEq] at h
      obtain ⟨-, rfl⟩ := h
      exact hm
    | id₀ :: rest =>
      simp only [copyPass1] at h
      by_cases hmm : (alookup m id₀).isSome
      · rw [if_pos hmm] at h
        exact ih _ _ _ _ _ _ h hm
      · rw [if_neg hmm] at h
        cases hsrc : src.get id₀ with
        | none =>
          rw [hsrc] at h
          exact ih _ _ _ _ _ _ h hm
        | some obj₀ =>
          rw [hsrc] at h
          simp only at h
          refine ih _ _ _ _ _ _ h ?_
          have hnone : alookup m id₀ = none :=
            Option.not_isSome_iff_eq_none.1 hmm
          rw [aset_of_alookup_none m id₀ _ hnone, List.map_append]
          refine List.Nodup.append hm (by simp) ?_
          intro x hx hx'
          simp only [List.map_cons, List.map_nil, List.mem_singleton] at hx'
          subst hx'
          exact hmm (alookup_isSome_of_mem_keys m x hx)

/-! ### Document mutation lemmas -/

theorem Document.get_set_self (d : Document) (id : ObjectId) (o : PdfObj) :
    (d.set id o).get id = some o :=
  alookup_aset_self d.objects id o

theorem Document.get_set_ne (d : Document) (id id' : ObjectId) (o : PdfObj)
    (h : id ≠ id') : (d.set id o).get id' = d.get id' :=
  alookup_aset_ne d.objects id id' o h

/-- The growing-target invariant for the fresh-allocation (`add_object`)
strategy: every key stays below the max-id counter, every mapped pair
stores the source object under the mapped (fresh) identifier, mapped
identifiers are below the counter and pairwise distinct. -/
structure DeepInv (src tgt : Document) (m : List (ObjectId × ObjectId)) : Prop where
  keyBound : ∀ key ∈ tgt.objects.map (·.1), key.1 ≤ tgt.maxId
  mappedObj : ∀ p ∈ m, ∃ o, src.get p.1 = some o ∧ tgt.get p.2 = some o
  valBound : ∀ p ∈ m, p.2.1 ≤ tgt.maxId
  valNodup : (m.map (·.2)).Nodup

theorem copyPass1_deep (src : Document) (capMsg : String) :
    ∀ fuel tgt queue proc m tgt' m',
      copyPass1 src freshAlloc capMsg fuel tgt queue proc m = .ok (tgt', m') →
      DeepInv src tgt m →
      DeepInv src tgt' m' ∧ tgt.maxId ≤ tgt'.maxId ∧
      (∀ id, (tgt.get id).isSome → tgt'.get id = tgt.get id) ∧
      (∀ p ∈ m', p ∈ m ∨ tgt.maxId < p.2.1) := by
  intro fuel
  induction fuel with
  | zero =>
    intro tgt queue proc m tgt' m' h hinv
    match queue with
    | [] =>
      simp only [copyPass1, Except.ok.injEq, Prod.mk.injEq] at h
      obtain ⟨rfl, rfl⟩ := h
      exact ⟨hinv, le_refl _, fun id _ => rfl, fun p hp => .inl hp⟩
    | _ :: _ => simp [copyPass1] at h
  | succ fuel ih =>
    intro tgt queue proc m tgt' m' h hinv
    match queue with
    | [] =>
      simp only [copyPass1, Except.ok.injEq, Prod.mk.injEq] at h
      obtain ⟨rfl, rfl⟩ := h
      exact ⟨hinv, le_refl _, fun id _ => rfl, fun p hp => .inl hp⟩
    | id₀ :: rest =>
      simp only [copyPass1] at h
      by_cases hm : (alookup m id₀).isSome
      · rw [if_pos hm] at h
        exact ih _ _ _ _ _ _ h hinv
      · rw [if_neg hm] at h
        cases hsrc : src.get id₀ with
        | none =>
          rw [hsrc] at h
          exact ih _ _ _ _ _ _ h hinv
        | some obj₀ =>
          rw [hsrc] at h
          simp only [freshAlloc, Document.addObject] at h
          set nid : ObjectId := (tgt.maxId + 1, 0) with hnid
          set tgt₁ : Document :=
            { tgt with objects := aset tgt.objects nid obj₀, maxId := tgt.maxId + 1 }
            with htgt₁
          have hfresh : ∀ id : ObjectId, id.1 ≤ tgt.maxId → id ≠ nid := by
            intro id hle he
            rw [he, hnid] at hle
            omega
          have hpres : ∀ id : ObjectId, (tgt.get id).isSome →
              tgt₁.get id = tgt.get id := by
            intro id hid
            have hmem : id ∈ tgt.objects.map (·.1) :=
              mem_keys_of_alookup_isSome tgt.objects id hid
            have hne : nid ≠ id :=
              fun he => hfresh id (hinv.keyBound id hmem) he.symm
            exact alookup_aset_ne tgt.objects nid id obj₀ hne
          have hinv₁ : DeepInv src tgt₁ (aset m id₀ nid) := by
            have hmnone : alookup m id₀ = none :=
              Option.not_isSome_iff_eq_none.1 hm
            rw [aset_of_alookup_none m id₀ nid hmnone]
            refine ⟨?_, ?_, ?_, ?_⟩
            · intro key hkey
              rcases keys_aset tgt.objects nid obj₀ key hkey with h' | h'
              · rw [h', hnid]
              · exact Nat.le_succ_of_le (hinv.keyBound key h')
            · intro p hp
              rcases List.mem_append.1 hp with h' | h'
              · obtain ⟨o, ho₁, ho₂⟩ := hinv.mappedObj p h'
                refine ⟨o, ho₁, ?_⟩
                have hs : (tgt.get p.2).isSome := by rw [ho₂]; rfl
                rw [hpres p.2 hs, ho₂]
              · have hp' : p = (id₀, nid) := List.mem_singleton.1 h'
                subst hp'
                exact ⟨obj₀, hsrc, alookup_aset_self tgt.objects nid obj₀⟩
            · intro p hp
              rcases List.mem_append.1 hp with h' | h'
              · exact Nat.le_succ_of_le (hinv.valBound p h')
              · have hp' : p = (id₀, nid) := List.mem_singleton.1 h'
                subst hp'
                simp [hnid]
            · rw [List.map_append]
              refine List.Nodup.append hinv.valNodup (by simp) ?_
              intro x hx hx'
              simp only [List.map_cons, List.map_nil, List.mem_singleton] at hx'
              rcases List.mem_map.1 hx with ⟨p, hp, hpx⟩
              have := hinv.valBound p hp
              rw [hpx, hx', hnid] at this
              omega
          obtain ⟨hinv', hmax, hpres', hnew⟩ := ih _ _ _ _ _ _ h hinv₁
          refine ⟨hinv', ?_, ?_, ?_⟩
          · calc tgt.maxId ≤ tgt.maxId + 1 := Nat.le_succ _
              _ = tgt₁.maxId := rfl
              _ ≤ tgt'.maxId := hmax
          · intro id hid
            have h1 := hpres id hid
            have h2 : (tgt₁.get id).isSome := by rw [h1]; exact hid
            rw [hpres' id h2, h1]
          · intro p hp
            rcases hnew p hp with h' | h'
            · rcases mem_aset m id₀ nid p h' with h'' | h''
              · right
                rw [h'', hnid]
                simp
              · exact .inl h''
            · right
              have : tgt₁.maxId = tgt.maxId + 1 := rfl
              omega


/-- The shifted identifier determines the original. -/
theorem shift_inj (off : Nat) (a b : ObjectId)
    (h : ((a.1 + off, a.2) : ObjectId) = (b.1 + off, b.2)) : a = b := by
  obtain ⟨a1, a2⟩ := a
  obtain ⟨b1, b2⟩ := b
  simp only [Prod.mk.injEq] at h ⊢
  omega

/-- The target invariant for the offset-shift strategy (merge), under
the assumption that no shifted source number reaches `2 ^ 32` (so the
`u32` addition does not wrap): every mapped pair's new identifier is the
shifted old identifier and stores the source object; identifiers at
numbers ≤ offset are untouched; bindings, presence, trailer and the
max-id counter are preserved; every target key is an old key or a mapped
value. -/
theorem copyPass1_shift (src : Document) (off : Nat) (capMsg : String)
    (hsrc1 : ∀ key ∈ src.objects.map (·.1), 1 ≤ key.1)
    (hnw : ∀ key ∈ src.objects.map (·.1), key.1 + off < 2 ^ 32) :
    ∀ fuel tgt queue proc m tgt' m',
      copyPass1 src (shiftAlloc off) capMsg fuel tgt queue proc m = .ok (tgt', m') →
      (∀ p ∈ m, p.2 = (p.1.1 + off, p.1.2)) →
      (∀ p ∈ m, ∃ o, src.get p.1 = some o ∧ tgt.get p.2 = some o) →
      (∀ p ∈ m', p.2 = (p.1.1 + off, p.1.2)) ∧
      (∀ p ∈ m', ∃ o, src.get p.1 = some o ∧ tgt'.get p.2 = some o) ∧
      (∀ id : ObjectId, id.1 ≤ off → tgt'.get id = tgt.get id) ∧
      (∀ p ∈ m, p ∈ m') ∧
      (∀ id, (tgt.get id).isSome → (tgt'.get id).isSome) ∧
      (∀ key, key ∈ tgt'.objects.map (·.1) →
        key ∈ tgt.objects.map (·.1) ∨ key ∈ m'.map (·.2)) ∧
      tgt'.trailer = tgt.trailer ∧ tgt'.maxId = tgt.maxId := by
  intro fuel
  induction fuel with
  | zero =>
    intro tgt queue proc m tgt' m' h hshape hobj
    match queue with
    | [] =>
      simp only [copyPass1, Except.ok.injEq, Prod.mk.injEq] at h
      obtain ⟨rfl, rfl⟩ := h
      exact ⟨hshape, hobj, fun id _ => rfl, fun p hp => hp, fun id hid => hid,
        fun key hkey => .inl hkey, rfl, rfl⟩
    | _ :: _ => simp [copyPass1] at h
  | succ fuel ih =>
    intro tgt queue proc m tgt' m' h hshape hobj
    match queue with
    | [] =>
      simp only [copyPass1, Except.ok.injEq, Prod.mk.injEq] at h
      obtain ⟨rfl, rfl⟩ := h
      exact ⟨hshape, hobj, fun id _ => rfl, fun p hp => hp, fun id hid => hid,
        fun key hkey => .inl hkey, rfl, rfl⟩
    | id₀ :: rest =>
      simp only [copyPass1] at h
      by_cases hm : (alookup m id₀).isSome
      · rw [if_pos hm] at h
        exact ih _ _ _ _ _ _ h hshape hobj
      · rw [if_neg hm] at h
        cases hsrc : src.get id₀ with
        | none =>
          rw [hsrc] at h
          exact ih _ _ _ _ _ _ h hshape hobj
        | some obj₀ =>
          rw [hsrc] at h
          simp only [shiftAlloc] at h
          have hid₀mem : id₀ ∈ src.objects.map (·.1) := by
            refine mem_keys_of_alookup_isSome src.objects id₀ ?_
            have hsrc' : alookup src.objects id₀ = some obj₀ := hsrc
            rw [hsrc']
            rfl
          have hmod : (id₀.1 + off) % 2 ^ 32 = id₀.1 + off :=
            Nat.mod_eq_of_lt (hnw id₀ hid₀mem)
          rw [hmod] at h
          set nid : ObjectId := (id₀.1 + off, id₀.2) with hnid
          set tgt₁ : Document := tgt.set nid obj₀ with htgt₁
          have hid₀pos : 1 ≤ id₀.1 := by
            refine hsrc1 id₀ (mem_keys_of_alookup_isSome src.objects id₀ ?_)
            have hsrc' : alookup src.objects id₀ = some obj₀ := hsrc
            rw [hsrc']
            rfl
          have hnidhigh : off < nid.1 := by rw [hnid]; omega
          have hmnone : alookup m id₀ = none := Option.not_isSome_iff_eq_none.1 hm
          have hshape' : ∀ p ∈ aset m id₀ nid, p.2 = (p.1.1 + off, p.1.2) := by
            intro p hp
            rcases mem_aset m id₀ nid p hp with h' | h'
            · rw [h']
            · exact hshape p h'
          have hobj' : ∀ p ∈ aset m id₀ nid,
              ∃ o, src.get p.1 = some o ∧ tgt₁.get p.2 = some o := by
            intro p hp
            rcases mem_aset m id₀ nid p hp with h' | h'
            · rw [h']
              exact ⟨obj₀, hsrc, Document.get_set_self tgt nid obj₀⟩
            · obtain ⟨o, ho₁, ho₂⟩ := hobj p h'
              refine ⟨o, ho₁, ?_⟩
              have hpne : p.1 ≠ id₀ := by
                intro he
                have hs := alookup_isSome_of_mem m p h'
                rw [he] at hs
                exact hm hs
              have hne : nid ≠ p.2 := by
                rw [hshape p h', hnid]
                intro he
                exact hpne (shift_inj off id₀ p.1 he).symm
              rw [htgt₁, Document.get_set_ne tgt nid p.2 obj₀ hne, ho₂]
          obtain ⟨c1, c2, c3, c4, c5, c6, c7, c8⟩ := ih _ _ _ _ _ _ h hshape' hobj'
          have hmemnew : (id₀, nid) ∈ m' := by
            refine c4 (id₀, nid) ?_
            rw [aset_of_alookup_none m id₀ nid hmnone]
            exact List.mem_append_right _ (List.mem_singleton.2 rfl)
          refine ⟨c1, c2, ?_, ?_, ?_, ?_, ?_, ?_⟩
          · intro id hid
            have h1 := c3 id hid
            have hne : nid ≠ id := by
              intro he
              rw [← he] at hid
              omega
            rw [h1, htgt₁, Document.get_set_ne tgt nid id obj₀ hne]
          · intro p hp
            refine c4 p ?_
            rw [aset_of_alookup_none m id₀ nid hmnone]
            exact List.mem_append_left _ hp
          · intro id hid
            exact c5 id (alookup_aset_isSome_mono tgt.objects id nid obj₀ hid)
          · intro key hkey
            rcases c6 key hkey with h' | h'
            · rcases keys_aset tgt.objects nid obj₀ key h' with h'' | h''
              · right
                rw [h'']
                exact List.mem_map.2 ⟨(id₀, nid), hmemnew, rfl⟩
              · exact .inl h''
            · exact .inr h'
          · exact c7
          · exact c8

/-- Pass 2 rewrites exactly the listed objects (assuming their new
identifiers are pairwise distinct) and leaves everything else alone. -/
theorem copyPass2_get (rw : PdfObj → PdfObj) (msg : String) :
    ∀ rest tgt tgt',
      copyPass2 rw msg tgt rest = .ok tgt' →
      (rest.map (·.2)).Nodup →
      (∀ id, id ∉ rest.map (·.2) → tgt'.get id = tgt.get id) ∧
      (∀ p ∈ rest, ∃ o, tgt.get p.2 = some o ∧ tgt'.get p.2 = some (rw o)) ∧
      (∀ id, (tgt.get id).isSome → (tgt'.get id).isSome) ∧
      tgt'.trailer = tgt.trailer ∧ tgt'.maxId = tgt.maxId := by
  intro rest
  induction rest with
  | nil =>
    intro tgt tgt' h _
    simp only [copyPass2, Except.ok.injEq] at h
    subst h
    exact ⟨fun id _ => rfl, by simp, fun id hid => hid, rfl, rfl⟩
  | cons hd rest ih =>
    intro tgt tgt' h hnd
    obtain ⟨k, nid⟩ := hd
    simp only [copyPass2] at h
    cases hget : tgt.get nid with
    | none => rw [hget] at h; simp at h
    | some o =>
      rw [hget] at h
      simp only at h
      have hnd' : (rest.map (·.2)).Nodup := by
        simp only [List.map_cons, List.nodup_cons] at hnd
        exact hnd.2
      have hnotin : nid ∉ rest.map (·.2) := by
        simp only [List.map_cons, List.nodup_cons] at hnd
        exact hnd.1
      obtain ⟨c1, c2, c3, c4, c5⟩ := ih (tgt.set nid (rw o)) tgt' h hnd'
      refine ⟨?_, ?_, ?_, ?_, ?_⟩
      · intro id hid
        simp only [List.map_cons, List.mem_cons, not_or] at hid
        rw [c1 id hid.2, Document.get_set_ne tgt nid id (rw o)
          (fun he => hid.1 he.symm)]
      · intro p hp
        rcases List.mem_cons.1 hp with h' | h'
        · rw [h']
          refine ⟨o, hget, ?_⟩
          rw [c1 nid hnotin, Document.get_set_self tgt nid (rw o)]
        · obtain ⟨o', ho₁, ho₂⟩ := c2 p h'
          refine ⟨o', ?_, ho₂⟩
          have hpne : nid ≠ p.2 := by
            intro he
            exact hnotin (he ▸ List.mem_map.2 ⟨p, h', rfl⟩)
          rw [← ho₁, Document.get_set_ne tgt nid p.2 (rw o) hpne]
      · intro id hid
        exact c3 id (alookup_aset_isSome_mono tgt.objects id nid (rw o) hid)
      · exact c4
      · exact c5

theorem mem_firstDedup (l : List ObjectId) :
    ∀ seen x, x ∈ l → x ∈ firstDedup l seen ∨ x ∈ seen := by
  induction l with
  | nil => intro seen x hx; simp at hx
  | cons hd tl ih =>
    intro seen x hx
    by_cases hs : hd ∈ seen
    · simp only [firstDedup, if_pos hs]
      rcases List.mem_cons.1 hx with h | h
      · exact .inr (h ▸ hs)
      · exact ih seen x h
    · simp only [firstDedup, if_neg hs]
      rcases List.mem_cons.1 hx with h | h
      · exact .inl (h ▸ List.mem_cons_self _ _)
      · rcases ih (hd :: seen) x h with h' | h'
        · exact .inl (List.mem_cons_of_mem _ h')
        · rcases List.mem_cons.1 h' with h'' | h''
          · exact .inl (h'' ▸ List.mem_cons_self _ _)
          · exact .inr h''

theorem firstDedup_subset (l : List ObjectId) :
    ∀ seen x, x ∈ firstDedup l seen → x ∈ l := by
  induction l with
  | nil => intro seen x hx; simp [firstDedup] at hx
  | cons hd tl ih =>
    intro seen x hx
    by_cases hs : hd ∈ seen
    · simp only [firstDedup, if_pos hs] at hx
      exact List.mem_cons_of_mem _ (ih seen x hx)
    · simp only [firstDedup, if_neg hs] at hx
      rcases List.mem_cons.1 hx with h | h
      · exact h ▸ List.mem_cons_self _ _
      · exact List.mem_cons_of_mem _ (ih (hd :: seen) x h)

theorem shift_values_nodup (off : Nat) (m : List (ObjectId × ObjectId))
    (hshape : ∀ p ∈ m, p.2 = (p.1.1 + off, p.1.2))
    (hkeys : (m.map (·.1)).Nodup) : (m.map (·.2)).Nodup := by
  have h1 : m.map (·.2) = (m.map (·.1)).map (fun a : ObjectId => (a.1 + off, a.2)) := by
    rw [List.map_map]
    exact List.map_congr_left hshape
  rw [h1]
  refine List.Nodup.map ?_ hkeys
  intro a b hab
  exact shift_inj off a b hab

/-- Everything `manual_deep_copy` guarantees on success: each mapped pair
stores the rewritten source object under a fresh identifier; every root is
mapped or missing; references of copied objects are mapped or missing; no
missing identifier is mapped; each identifier is mapped at most once; the
pre-existing target objects are untouched. -/
theorem manual_deep_copy_ok (src tgt : Document) (ids : List ObjectId)
    (tgt' : Document) (m : List (ObjectId × ObjectId))
    (h : manual_deep_copy src tgt ids = .ok (tgt', m))
    (hkb : ∀ key ∈ tgt.objects.map (·.1), key.1 ≤ tgt.maxId) :
    (∀ p ∈ m, ∃ o, src.get p.1 = some o ∧
        tgt'.get p.2 = some (update_references_recursive m o) ∧ tgt.maxId < p.2.1) ∧
    (∀ id ∈ ids, mappedOrMissing src m id) ∧
    (∀ k obj, (alookup m k).isSome → src.get k = some obj →
        ∀ r ∈ refList obj, mappedOrMissing src m r) ∧
    (∀ k, (alookup m k).isSome → (src.get k).isSome) ∧
    (m.map (·.1)).Nodup ∧
    (∀ id, (tgt.get id).isSome → tgt'.get id = tgt.get id) := by
  simp only [manual_deep_copy] at h
  cases h1 : copyPass1 src freshAlloc "Deep copy loop exceeded limit"
      ((src.objects.length + ids.length) * 2) tgt ids ids [] with
  | error e => rw [h1] at h; simp at h
  | ok res =>
    obtain ⟨tgt1, m1⟩ := res
    rw [h1] at h
    simp only at h
    cases h2 : copyPass2 (update_references_recursive m1)
        "Failed to retrieve copied object during reference update" tgt1 m1 with
    | error e => rw [h2] at h; simp at h
    | ok tgt2 =>
      rw [h2] at h
      simp only [Except.ok.injEq, Prod.mk.injEq] at h
      obtain ⟨rfl, rfl⟩ := h
      have hmt : ∀ k : ObjectId,
          (alookup ([] : List (ObjectId × ObjectId)) k).isSome = false := by
        intro k; rfl
      have hclosure := copyPass1_closure src freshAlloc
        "Deep copy loop exceeded limit"
        ((src.objects.length + ids.length) * 2) tgt ids ids [] tgt1 m1 h1
        (fun id hid => hid)
        (fun id hid => .inl hid)
        (fun k obj hk => by rw [hmt k] at hk; exact absurd hk (by simp))
      have hdeep := copyPass1_deep src "Deep copy loop exceeded limit"
        ((src.objects.length + ids.length) * 2) tgt ids ids [] tgt1 m1 h1
        ⟨hkb, by simp, by simp, by simp⟩
      obtain ⟨hinv, hmax, hpres, hnew⟩ := hdeep
      have hnodup := copyPass1_nodup_keys src freshAlloc
        "Deep copy loop exceeded limit"
        ((src.objects.length + ids.length) * 2) tgt ids ids [] tgt1 m1 h1
        (by simp)
      have hsrcOnly := copyPass1_srcOnly src freshAlloc
        "Deep copy loop exceeded limit"
        ((src.objects.length + ids.length) * 2) tgt ids ids [] tgt1 m1 h1
      obtain ⟨p1, p2, p3, p4, p5⟩ := copyPass2_get
        (update_references_recursive m1)
        "Failed to retrieve copied object during reference update"
        m1 tgt1 tgt2 h2 hinv.valNodup
      refine ⟨?_, hclosure.1, hclosure.2, ?_, hnodup, ?_⟩
      · intro p hp
        obtain ⟨o, ho₁, ho₂⟩ := hinv.mappedObj p hp
        obtain ⟨o', ho₁', ho₂'⟩ := p2 p hp
        have hoo : o' = o := by
          rw [ho₂] at ho₁'
          exact (Option.some.injEq _ _ ▸ ho₁').symm
        subst hoo
        refine ⟨o', ho₁, ho₂', ?_⟩
        rcases hnew p hp with h' | h'
        · simp at h'
        · exact h'
      · intro k hk
        rcases hsrcOnly k hk with h' | h'
        · rw [hmt k] at h'
          exact absurd h' (by simp)
        · exact h'
      · intro id hid
        have hple := hpres id hid
        have hnotval : id ∉ m1.map (·.2) := by
          intro hmem
          rcases List.mem_map.1 hmem with ⟨p, hp, hpid⟩
          rcases hnew p hp with h' | h'
          · simp at h'
          · have hkey : id ∈ tgt.objects.map (·.1) :=
              mem_keys_of_alookup_isSome tgt.objects id hid
            have := hkb id hkey
            rw [hpid] at h'
            omega
        rw [p1 id hnotval, hple]

/-- Everything `merge_and_shift_objects` guarantees on success, provided
no shifted source number reaches `2 ^ 32` (no `u32` wrap): mapped
pairs are offset shifts storing the rewritten source object; target
objects at numbers ≤ offset are untouched; no missing identifier is
mapped; keys are mapped at most once; presence is monotone; every target
key is an old key or a shifted value; the trailer and counter are
untouched; every source page is mapped or missing. -/
theorem merge_and_shift_ok (tgt src : Document) (off : Nat) (tpid : ObjectId)
    (tgt' : Document) (m : List (ObjectId × ObjectId))
    (h : merge_and_shift_objects tgt src off tpid = .ok (tgt', m))
    (hsrc1 : ∀ key ∈ src.objects.map (·.1), 1 ≤ key.1)
    (hnw : ∀ key ∈ src.objects.map (·.1), key.1 + off < 2 ^ 32) :
    (∀ p ∈ m, p.2 = (p.1.1 + off, p.1.2)) ∧
    (∀ p ∈ m, ∃ o, src.get p.1 = some o ∧
        tgt'.get p.2 = some (update_references_recursive_merge m tpid o)) ∧
    (∀ id : ObjectId, id.1 ≤ off → tgt'.get id = tgt.get id) ∧
    (∀ k, (alookup m k).isSome → (src.get k).isSome) ∧
    (m.map (·.1)).Nodup ∧
    (∀ id, (tgt.get id).isSome → (tgt'.get id).isSome) ∧
    (∀ key, key ∈ tgt'.objects.map (·.1) →
        key ∈ tgt.objects.map (·.1) ∨ key ∈ m.map (·.2)) ∧
    tgt'.trailer = tgt.trailer ∧ tgt'.maxId = tgt.maxId ∧
    (∀ id ∈ getPages src, mappedOrMissing src m id) := by
  simp only [merge_and_shift_objects] at h
  cases h1 : copyPass1 src (shiftAlloc off)
      "Deep copy loop exceeded limit for merge"
      (src.objects.length * 2 + 10) tgt
      (firstDedup (getPages src) []) (firstDedup (getPages src) []) [] with
  | error e => rw [h1] at h; simp at h
  | ok res =>
    obtain ⟨tgt1, m1⟩ := res
    rw [h1] at h
    simp only at h
    cases h2 : copyPass2 (update_references_recursive_merge m1 tpid)
        "Failed to retrieve copied object during merge reference update"
        tgt1 m1 with
    | error e => rw [h2] at h; simp at h
    | ok tgt2 =>
      rw [h2] at h
      simp only [Except.ok.injEq, Prod.mk.injEq] at h
      obtain ⟨rfl, rfl⟩ := h
      have hmt : ∀ k : ObjectId,
          (alookup ([] : List (ObjectId × ObjectId)) k).isSome = false := by
        intro k; rfl
      have hclosure := copyPass1_closure src (shiftAlloc off)
        "Deep copy loop exceeded limit for merge"
        (src.objects.length * 2 + 10) tgt
        (firstDedup (getPages src) []) (firstDedup (getPages src) []) [] tgt1 m1 h1
        (fun id hid => hid)
        (fun id hid => .inl hid)
        (fun k obj hk => by rw [hmt k] at hk; exact absurd hk (by simp))
      have hnodup := copyPass1_nodup_keys src (shiftAlloc off)
        "Deep copy loop exceeded limit for merge"
        (src.objects.length * 2 + 10) tgt
        (firstDedup (getPages src) []) (firstDedup (getPages src) []) [] tgt1 m1 h1
        (by simp)
      have hsrcOnly := copyPass1_srcOnly src (shiftAlloc off)
        "Deep copy loop exceeded limit for merge"
        (src.objects.length * 2 + 10) tgt
        (firstDedup (getPages src) []) (firstDedup (getPages src) []) [] tgt1 m1 h1
      obtain ⟨s1, s2, s3, s4, s5, s6, s7, s8⟩ := copyPass1_shift src off
        "Deep copy loop exceeded limit for merge" hsrc1 hnw
        (src.objects.length * 2 + 10) tgt
        (firstDedup (getPages src) []) (firstDedup (getPages src) []) [] tgt1 m1 h1
        (by simp) (by simp)
      have hvalnd : (m1.map (·.2)).Nodup := shift_values_nodup off m1 s1 hnodup
      obtain ⟨p1, p2, p3, p4, p5⟩ := copyPass2_get
        (update_references_recursive_merge m1 tpid)
        "Failed to retrieve copied object during merge reference update"
        m1 tgt1 tgt2 h2 hvalnd
      have hvalhigh : ∀ p ∈ m1, off < p.2.1 := by
        intro p hp
        have hshape := s1 p hp
        obtain ⟨o, ho₁, -⟩ := s2 p hp
        have hkmem : p.1 ∈ src.objects.map (·.1) := by
          refine mem_keys_of_alookup_isSome src.objects p.1 ?_
          have ho₁' : alookup src.objects p.1 = some o := ho₁
          rw [ho₁']
          rfl
        have := hsrc1 p.1 hkmem
        rw [hshape]
        omega
      refine ⟨s1, ?_, ?_, ?_, hnodup, ?_, ?_, p4.trans s7, p5.trans s8, ?_⟩
      · intro p hp
        obtain ⟨o, ho₁, ho₂⟩ := s2 p hp
        obtain ⟨o', ho₁', ho₂'⟩ := p2 p hp
        have hoo : o' = o := by
          rw [ho₂] at ho₁'
          exact (Option.some.injEq _ _ ▸ ho₁').symm
        subst hoo
        exact ⟨o', ho₁, ho₂'⟩
      · intro id hid
        have hnotval : id ∉ m1.map (·.2) := by
          intro hmem
          rcases List.mem_map.1 hmem with ⟨p, hp, hpid⟩
          have := hvalhigh p hp
          rw [hpid] at this
          omega
        rw [p1 id hnotval, s3 id hid]
      · intro k hk
        rcases hsrcOnly k hk with h' | h'
        · rw [hmt k] at h'
          exact absurd h' (by simp)
        · exact h'
      · intro id hid
        exact p3 id (s5 id hid)
      · intro key hkey
        have hksome : (tgt2.get key).isSome := alookup_isSome_of_mem_keys _ key hkey
        by_cases hv : key ∈ m1.map (·.2)
        · exact .inr hv
        · rw [p1 key hv] at hksome
          exact s6 key (mem_keys_of_alookup_isSome _ key hksome)
      · intro id hid
        rcases mem_firstDedup (getPages src) [] id hid with h' | h'
        · exact hclosure.1 id h'
        · simp at h'

/-! ### Page-tree traversal lemmas -/

/-- A flat Kids array — every kid a reference to a `/Type /Page`
dictionary — enumerates exactly those identifiers, in order. -/
theorem pageList_flat (doc : Document) (fuel : Nat) :
    ∀ ids : List ObjectId,
      (∀ id ∈ ids, ∃ es, doc.get id = some (.dictionary es) ∧
        dictType es = some "Page") →
      pageList doc (fuel + 1) (ids.map PdfObj.reference) = ids := by
  intro ids
  induction ids with
  | nil => intro _; simp [pageList]
  | cons hd tl ih =>
    intro h
    obtain ⟨es, hes, htype⟩ := h hd (List.mem_cons_self _ _)
    have htl := ih (fun id hid => h id (List.mem_cons_of_mem _ hid))
    simp only [List.map_cons, pageList, List.flatMap_cons] at htl ⊢
    rw [hes]
    simp only [htype]
    simp [htl]

/-- Whatever the traversal yields is a `/Type /Page` dictionary. -/
theorem pageList_mem (doc : Document) :
    ∀ fuel kids id, id ∈ pageList doc fuel kids →
      ∃ es, doc.get id = some (.dictionary es) ∧ dictType es = some "Page" := by
  intro fuel
  induction fuel with
  | zero => intro kids id h; simp [pageList] at h
  | succ fuel ih =>
    intro kids id h
    simp only [pageList, List.mem_flatMap] at h
    obtain ⟨kid, hkid, hmem⟩ := h
    cases kid with
    | reference kidId =>
      dsimp only at hmem
      cases hget : doc.get kidId with
      | none => rw [hget] at hmem; simp at hmem
      | some o =>
        rw [hget] at hmem
        cases o with
        | dictionary es =>
          dsimp only at hmem
          by_cases hp : dictType es = some "Pages"
          · rw [if_pos hp] at hmem
            exact ih (kidsArray es) id hmem
          · rw [if_neg hp] at hmem
            by_cases hq : dictType es = some "Page"
            · rw [if_pos hq] at hmem
              have : id = kidId := by simpa using hmem
              exact ⟨es, this ▸ hget, hq⟩
            · rw [if_neg hq] at hmem
              simp at hmem
        | null => simp at hmem
        | boolean b => simp at hmem
        | integer i => simp at hmem
        | real r => simp at hmem
        | name n => simp at hmem
        | str s hx => simp at hmem
        | array xs => simp at hmem
        | reference rr => simp at hmem
        | stream es c => simp at hmem
    | null => simp at hmem
    | boolean b => simp at hmem
    | integer i => simp at hmem
    | real r => simp at hmem
    | name n => simp at hmem
    | str s hx => simp at hmem
    | array xs => simp at hmem
    | dictionary es => simp at hmem
    | stream es c => simp at hmem

/-- Every enumerated page resolves to a `/Type /Page` dictionary. -/
theorem getPages_mem (doc : Document) (id : ObjectId) (h : id ∈ getPages doc) :
    ∃ es, doc.get id = some (.dictionary es) ∧ dictType es = some "Page" := by
  simp only [getPages] at h
  cases h1 : alookup doc.trailer "Root" with
  | none => rw [h1] at h; simp at h
  | some o =>
    rw [h1] at h
    cases o with
    | reference rid =>
      dsimp only at h
      cases h2 : doc.get rid with
      | none => rw [h2] at h; simp at h
      | some o2 =>
        rw [h2] at h
        cases o2 with
        | dictionary cat =>
          dsimp only at h
          cases h3 : alookup cat "Pages" with
          | none => rw [h3] at h; simp at h
          | some o3 =>
            rw [h3] at h
            cases o3 with
            | reference pid =>
              dsimp only at h
              cases h4 : doc.get pid with
              | none => rw [h4] at h; simp at h
              | some o4 =>
                rw [h4] at h
                cases o4 with
                | dictionary es =>
                  dsimp only at h
                  exact pageList_mem doc _ _ id h
                | null => simp at h
                | boolean b => simp at h
                | integer i => simp at h
                | real r => simp at h
                | name n => simp at h
                | str s hx => simp at h
                | array xs => simp at h
                | reference rr => simp at h
                | stream es c => simp at h
            | null => simp at h
            | boolean b => simp at h
            | integer i => simp at h
            | real r => simp at h
            | name n => simp at h
            | str s hx => simp at h
            | array xs => simp at h
            | dictionary es => simp at h
            | stream es c => simp at h
        | null => simp at h
        | boolean b => simp at h
        | integer i => simp at h
        | real r => simp at h
        | name n => simp at h
        | str s hx => simp at h
        | array xs => simp at h
        | reference r => simp at h
        | stream es c => simp at h
    | null => simp at h
    | boolean b => simp at h
    | integer i => simp at h
    | real r => simp at h
    | name n => simp at h
    | str s hx => simp at h
    | array xs => simp at h
    | dictionary es => simp at h
    | stream es c => simp at h

/-! ### Characterisations of the orchestrator loops -/

theorem isPageDict_iff (es : List (String × PdfObj)) :
    isPageDict es = true ↔ dictType es = some "Page" := by
  simp only [isPageDict, dictType]
  cases alookup es "Type" with
  | none => simp
  | some o =>
    cases o <;> simp

theorem collectNewKids_ok (m : List (ObjectId × ObjectId)) :
    ∀ pids kids, collectNewKids m pids = .ok kids →
      (∀ pid ∈ pids, (alookup m pid).isSome) ∧
      kids = pids.map (fun pid => PdfObj.reference (mapId m pid)) := by
  intro pids
  induction pids with
  | nil =>
    intro kids h
    simp only [collectNewKids, Except.ok.injEq] at h
    exact ⟨by simp, h.symm ▸ rfl⟩
  | cons hd tl ih =>
    intro kids h
    simp only [collectNewKids] at h
    cases hm : alookup m hd with
    | none => rw [hm] at h; simp at h
    | some nid =>
      rw [hm] at h
      dsimp only at h
      cases hrec : collectNewKids m tl with
      | error e => rw [hrec] at h; simp at h
      | ok kids' =>
        rw [hrec] at h
        simp only [Except.ok.injEq] at h
        obtain ⟨h1, h2⟩ := ih kids' hrec
        constructor
        · intro pid hpid
          rcases List.mem_cons.1 hpid with h' | h'
          · rw [h', hm]; rfl
          · exact h1 pid h'
        · rw [← h, h2, List.map_cons]
          congr 1
          simp [mapId, hm]

theorem resolvePages_ok (pagesMap : List ObjectId) :
    ∀ pages ids, resolvePages pagesMap pages = .ok ids →
      (∀ p ∈ pages, p ≠ 0 ∧ (pagesMap.get? (p - 1)).isSome) ∧
      ids = pages.map (fun p => (pagesMap.get? (p - 1)).getD (0, 0)) := by
  intro pages
  induction pages with
  | nil =>
    intro ids h
    simp only [resolvePages, Except.ok.injEq] at h
    exact ⟨by simp, h.symm ▸ rfl⟩
  | cons hd tl ih =>
    intro ids h
    simp only [resolvePages] at h
    by_cases h0 : hd = 0
    · rw [if_pos h0] at h; simp at h
    · rw [if_neg h0] at h
      cases hg : pagesMap.get? (hd - 1) with
      | none => rw [hg] at h; simp at h
      | some id =>
        rw [hg] at h
        dsimp only at h
        cases hrec : resolvePages pagesMap tl with
        | error e => rw [hrec] at h; simp at h
        | ok ids' =>
          rw [hrec] at h
          simp only [Except.ok.injEq] at h
          obtain ⟨h1, h2⟩ := ih ids' hrec
          constructor
          · intro p hp
            rcases List.mem_cons.1 hp with h' | h'
            · subst h'
              exact ⟨h0, by rw [hg]; rfl⟩
            · exact h1 p h'
          · rw [← h, h2, List.map_cons]
            congr 1
            rw [hg]
            rfl

theorem resolvePages_zero_mem (pagesMap : List ObjectId) :
    ∀ pages, 0 ∈ pages → ∃ e, resolvePages pagesMap pages = .error e := by
  intro pages
  induction pages with
  | nil => intro h; simp at h
  | cons hd tl ih =>
    intro h
    rcases List.mem_cons.1 h with h' | h'
    · refine ⟨"Invalid page number: page numbers must be 1-based.", ?_⟩
      simp [resolvePages, h'.symm]
    · simp only [resolvePages]
      by_cases h0 : hd = 0
      · exact ⟨_, by rw [if_pos h0]⟩
      · rw [if_neg h0]
        cases hg : pagesMap.get? (hd - 1) with
        | none => exact ⟨_, rfl⟩
        | some id =>
          obtain ⟨e, he⟩ := ih h'
          refine ⟨e, ?_⟩
          dsimp only
          rw [he]

theorem buildKids_ok (m : List (ObjectId × ObjectId)) (npid : ObjectId) :
    ∀ olds d d' kids, buildKids m npid d olds = .ok (d', kids) →
      kids = olds.map (fun old => PdfObj.reference (mapId m old)) ∧
      (∀ old ∈ olds, (alookup m old).isSome) ∧
      (∀ id, id ∉ olds.map (mapId m) → d'.get id = d.get id) ∧
      (∀ old ∈ olds, ∃ es, d'.get (mapId m old) = some (.dictionary es) ∧
        alookup es "Parent" = some (.reference npid)) := by
  intro olds
  induction olds with
  | nil =>
    intro d d' kids h
    simp only [buildKids, Except.ok.injEq, Prod.mk.injEq] at h
    obtain ⟨rfl, rfl⟩ := h
    exact ⟨rfl, by simp, fun id _ => rfl, by simp⟩
  | cons hd tl ih =>
    intro d d' kids h
    simp only [buildKids] at h
    cases hm : alookup m hd with
    | none => rw [hm] at h; simp at h
    | some nid =>
      rw [hm] at h
      dsimp only at h
      have hmap : mapId m hd = nid := by simp [mapId, hm]
      cases hget : d.get nid with
      | none => rw [hget] at h; simp at h
      | some o =>
        rw [hget] at h
        cases o with
        | dictionary es =>
          dsimp only at h
          cases hrec : buildKids m npid
              (d.set nid (.dictionary (aset es "Parent" (.reference npid)))) tl with
          | error e => rw [hrec] at h; simp at h
          | ok res =>
            obtain ⟨d2, kids'⟩ := res
            rw [hrec] at h
            simp only [Except.ok.injEq, Prod.mk.injEq] at h
            obtain ⟨rfl, rfl⟩ := h
            obtain ⟨c1, c2, c3, c4⟩ := ih _ _ _ hrec
            refine ⟨?_, ?_, ?_, ?_⟩
            · rw [List.map_cons, hmap, c1]
            · intro old hold
              rcases List.mem_cons.1 hold with h' | h'
              · rw [h', hm]; rfl
              · exact c2 old h'
            · intro id hid
              simp only [List.map_cons, List.mem_cons, not_or] at hid
              rw [c3 id hid.2]
              rw [hmap] at hid
              exact Document.get_set_ne d nid id _ (fun he => hid.1 he.symm)
            · intro old hold
              rcases List.mem_cons.1 hold with h' | h'
              · subst h'
                by_cases hdup : mapId m old ∈ tl.map (mapId m)
                · rcases List.mem_map.1 hdup with ⟨old', hold', heq⟩
                  obtain ⟨es', he₁, he₂⟩ := c4 old' hold'
                  exact ⟨es', heq ▸ he₁, he₂⟩
                · rw [c3 (mapId m old) hdup, hmap,
                    Document.get_set_self d nid _]
                  exact ⟨aset es "Parent" (.reference npid), rfl,
                    alookup_aset_self es "Parent" _⟩
              · exact c4 old h'
        | null => simp at h
        | boolean b => simp at h
        | integer i => simp at h
        | real r => simp at h
        | name n => simp at h
        | str s hx => simp at h
        | array xs => simp at h
        | reference rr => simp at h
        | stream es c => simp at h

theorem validateDeletePages_err (pageCount : Nat) :
    ∀ pages p, p ∈ pages → (p = 0 ∨ pageCount < p) →
      ∃ e, validateDeletePages pageCount pages = .error e := by
  intro pages
  induction pages with
  | nil => intro p hp; simp at hp
  | cons hd tl ih =>
    intro p hp hbad
    simp only [validateDeletePages]
    by_cases hcond : hd = 0 ∨ pageCount < hd
    · exact ⟨_, by rw [if_pos hcond]⟩
    · rw [if_neg hcond]
      rcases List.mem_cons.1 hp with h' | h'
      · subst h'
        exact absurd hbad hcond
      · exact ih p h' hbad

/-! ### Rust remainder arithmetic -/

theorem tmod_ofNat_360 (m : Nat) :
    Int.tmod (Int.ofNat m) 360 = Int.ofNat (m % 360) := rfl

theorem tmod_negSucc_360 (m : Nat) :
    Int.tmod (Int.negSucc m) 360 = -Int.ofNat ((m + 1) % 360) := rfl

theorem tmod_coe_360 (m : Nat) :
    Int.tmod (↑m) 360 = ↑(m % 360) := rfl

theorem tmod360_neg (a : Int) (h1 : -360 < a) (h2 : a < 0) :
    Int.tmod a 360 = a := by
  obtain ⟨m, rfl⟩ := Int.eq_negSucc_of_lt_zero h2
  rw [tmod_negSucc_360]
  rw [Int.negSucc_eq] at h1 ⊢
  have hm : m + 1 < 360 := by omega
  rw [Nat.mod_eq_of_lt hm]
  simp only [Int.ofNat_eq_coe]
  omega

theorem tmod360_big (a : Int) (h1 : 360 ≤ a) (h2 : a < 720) :
    Int.tmod a 360 = a - 360 := by
  obtain ⟨m, rfl⟩ := Int.eq_ofNat_of_zero_le (le_trans (by omega) h1)
  rw [tmod_coe_360]
  have hm : m % 360 = m - 360 := by omega
  rw [hm]
  omega

theorem tmod360_natAbs (a : Int) : (Int.tmod a 360).natAbs < 360 := by
  cases a with
  | ofNat m =>
    rw [tmod_ofNat_360]
    simpa using Nat.mod_lt m (by omega)
  | negSucc m =>
    rw [tmod_negSucc_360, Int.natAbs_neg]
    simpa using Nat.mod_lt (m + 1) (by omega)

theorem wrapI32_small (v : Int) (h1 : -(2 ^ 31) ≤ v) (h2 : v < 2 ^ 31) :
    wrapI32 v = v := by
  simp only [wrapI32]
  omega

/-- The stored rotation value is always strictly smaller than 360 in
absolute value. -/
theorem newRotationValue_natAbs (current rotation : Int) :
    (newRotationValue current rotation).natAbs < 360 :=
  tmod360_natAbs _

/-- Second 90° rotation equals a single 180° rotation, for any stored
rotation strictly between −360 and 360 (in particular for any value this
function itself can have stored). -/
theorem newRotationValue_twice_90 (r : Int) (h1 : -360 < r) (h2 : r < 360) :
    newRotationValue (newRotationValue r 90) 90 = newRotationValue r 180 := by
  have w1 : wrapI32 r = r := wrapI32_small r (by omega) (by omega)
  have w2 : wrapI32 (r + 90) = r + 90 := wrapI32_small _ (by omega) (by omega)
  have w3 : wrapI32 (r + 180) = r + 180 := wrapI32_small _ (by omega) (by omega)
  simp only [newRotationValue, rustRem, w1, w2, w3]
  by_cases hA : r + 90 < 0
  · have hs : Int.tmod (r + 90) 360 = r + 90 := tmod360_neg _ (by omega) hA
    rw [hs]
    have w4 : wrapI32 (r + 90) = r + 90 := w2
    rw [w4]
    have w5 : wrapI32 (r + 90 + 90) = r + 90 + 90 :=
      wrapI32_small _ (by omega) (by omega)
    rw [w5, show r + 90 + 90 = r + 180 by ring]
  · by_cases hB : r + 90 < 360
    · have hs : Int.tmod (r + 90) 360 = r + 90 :=
        Int.tmod_eq_of_lt (by omega) hB
      rw [hs, w2]
      have w5 : wrapI32 (r + 90 + 90) = r + 90 + 90 :=
        wrapI32_small _ (by omega) (by omega)
      rw [w5, show r + 90 + 90 = r + 180 by ring]
    · have hs : Int.tmod (r + 90) 360 = r + 90 - 360 :=
        tmod360_big _ (by omega) (by omega)
      rw [hs]
      have w4 : wrapI32 (r + 90 - 360) = r + 90 - 360 :=
        wrapI32_small _ (by omega) (by omega)
      rw [w4]
      have w5 : wrapI32 (r + 90 - 360 + 90) = r + 90 - 360 + 90 :=
        wrapI32_small _ (by omega) (by omega)
      rw [w5]
      have hl : Int.tmod (r + 90 - 360 + 90) 360 = r - 180 := by
        rw [show r + 90 - 360 + 90 = r - 180 by ring]
        exact Int.tmod_eq_of_lt (by omega) (by omega)
      have hr : Int.tmod (r + 180) 360 = r - 180 := by
        rw [tmod360_big _ (by omega) (by omega)]
        ring
      rw [hl, hr]

/-- The rotate loop on a single resolvable page stores exactly
`newRotationValue` of the current rotation. -/
theorem rotateLoop_single (rot : Int) (doc : Document) (pid : ObjectId)
    (es : List (String × PdfObj)) (h : doc.get pid = some (.dictionary es)) :
    rotateLoop rot doc [pid] =
      .ok (doc.set pid (.dictionary (aset es "Rotate"
        (.integer (newRotationValue (currentRotation es) rot))))) := by
  simp only [rotateLoop, h]

/-! ### Error-shape lemmas -/

theorem copyPass1_error (src : Document)
    (alloc : Document → ObjectId → PdfObj → Document × ObjectId)
    (capMsg : String) :
    ∀ fuel tgt queue proc m e,
      copyPass1 src alloc capMsg fuel tgt queue proc m = .error e → e = capMsg := by
  intro fuel
  induction fuel with
  | zero =>
    intro tgt queue proc m e h
    match queue with
    | [] => simp [copyPass1] at h
    | _ :: _ =>
      simp only [copyPass1, Except.error.injEq] at h
      exact h.symm
  | succ fuel ih =>
    intro tgt queue proc m e h
    match queue with
    | [] => simp [copyPass1] at h
    | id₀ :: rest =>
      simp only [copyPass1] at h
      by_cases hm : (alookup m id₀).isSome
      · rw [if_pos hm] at h
        exact ih _ _ _ _ _ h
      · rw [if_neg hm] at h
        cases hsrc : src.get id₀ with
        | none => rw [hsrc] at h; exact ih _ _ _ _ _ h
        | some obj₀ =>
          rw [hsrc] at h
          simp only at h
          exact ih _ _ _ _ _ h

theorem copyPass2_error (rw : PdfObj → PdfObj) (msg : String) :
    ∀ rest tgt e, copyPass2 rw msg tgt rest = .error e → e = msg := by
  intro rest
  induction rest with
  | nil => intro tgt e h; simp [copyPass2] at h
  | cons hd rest ih =>
    intro tgt e h
    obtain ⟨k, nid⟩ := hd
    simp only [copyPass2] at h
    cases hget : tgt.get nid with
    | none =>
      rw [hget] at h
      simp only [Except.error.injEq] at h
      exact h.symm
    | some o =>
      rw [hget] at h
      exact ih _ _ h

/-- `manual_deep_copy` is total and can only fail with the loop-cap error
or the pass-2 re-fetch error. -/
theorem manual_deep_copy_error (src tgt : Document) (ids : List ObjectId)
    (e : String) (h : manual_deep_copy src tgt ids = .error e) :
    e = "Deep copy loop exceeded limit" ∨
    e = "Failed to retrieve copied object during reference update" := by
  simp only [manual_deep_copy] at h
  cases h1 : copyPass1 src freshAlloc "Deep copy loop exceeded limit"
      ((src.objects.length + ids.length) * 2) tgt ids ids [] with
  | error e' =>
    rw [h1] at h
    simp only [Except.error.injEq] at h
    left
    rw [← h]
    exact copyPass1_error src freshAlloc _ _ _ _ _ _ _ h1
  | ok res =>
    obtain ⟨tgt1, m1⟩ := res
    rw [h1] at h
    simp only at h
    cases h2 : copyPass2 (update_references_recursive m1)
        "Failed to retrieve copied object during reference update" tgt1 m1 with
    | error e' =>
      rw [h2] at h
      simp only [Except.error.injEq] at h
      right
      rw [← h]
      exact copyPass2_error _ _ _ _ _ h2
    | ok tgt2 => rw [h2] at h; simp at h

/-! ### Concrete example documents -/

/-- A two-object source graph with the reference cycle A→B→A. -/
def srcCycle : Document :=
  { objects :=
      [((1, 0), .dictionary [("Next", .reference (2, 0))]),
       ((2, 0), .dictionary [("Next", .reference (1, 0))])],
    trailer := [], maxId := 2 }

/-- A fresh target with the two tree-node/catalog identifiers reserved,
as the extract and split orchestrators prepare it. -/
def tgtReserved : Document := (emptyDoc.newObjectId).1.newObjectId.1

/-- A one-object source whose single object holds four dangling
references, enough to push the pop count past the
`(objects + roots) * 2 = 4` cap. -/
def srcManyDangling : Document :=
  { objects :=
      [((1, 0), .array [.reference (2, 0), .reference (3, 0),
                        .reference (4, 0), .reference (5, 0)])],
    trailer := [], maxId := 1 }

/-- A flat two-page document: catalog (1,0) → tree node (2,0) →
pages (3,0), (4,0). -/
def docFlat2 : Document :=
  { objects :=
      [((1, 0), .dictionary [("Type", .name "Catalog"),
                             ("Pages", .reference (2, 0))]),
       ((2, 0), .dictionary [("Type", .name "Pages"),
                             ("Kids", .array [.reference (3, 0), .reference (4, 0)]),
                             ("Count", .integer 2)]),
       ((3, 0), .dictionary [("Type", .name "Page"),
                             ("Parent", .reference (2, 0))]),
       ((4, 0), .dictionary [("Type", .name "Page"),
                             ("Parent", .reference (2, 0))])],
    trailer := [("Root", .reference (1, 0))], maxId := 4 }

/-- A flat one-page document with a content stream: page (1,0) →
stream (4,0); tree node (2,0); catalog (3,0). -/
def docFlat1 : Document :=
  { objects :=
      [((1, 0), .dictionary [("Type", .name "Page"),
                             ("Parent", .reference (2, 0)),
                             ("Contents", .reference (4, 0))]),
       ((2, 0), .dictionary [("Type", .name "Pages"),
                             ("Kids", .array [.reference (1, 0)]),
                             ("Count", .integer 1)]),
       ((3, 0), .dictionary [("Type", .name "Catalog"),
                             ("Pages", .reference (2, 0))]),
       ((4, 0), .stream [("Length", .integer 3)] [1, 2, 3])],
    trailer := [("Root", .reference (3, 0))], maxId := 4 }

/-- A two-page document whose page tree is nested: root node (1,0) has a
single intermediate node (2,0) as its only kid, which holds the two
pages (3,0), (4,0); catalog (5,0). -/
def docNested2 : Document :=
  { objects :=
      [((1, 0), .dictionary [("Type", .name "Pages"),
                             ("Kids", .array [.reference (2, 0)]),
                             ("Count", .integer 2)]),
       ((2, 0), .dictionary [("Type", .name "Pages"),
                             ("Kids", .array [.reference (3, 0), .reference (4, 0)]),
                             ("Count", .integer 2)]),
       ((3, 0), .dictionary [("Type", .name "Page"),
                             ("Parent", .reference (2, 0))]),
       ((4, 0), .dictionary [("Type", .name "Page"),
                             ("Parent", .reference (2, 0))]),
       ((5, 0), .dictionary [("Type", .name "Catalog"),
                             ("Pages", .reference (1, 0))])],
    trailer := [("Root", .reference (5, 0))], maxId := 5 }

/-- A source document with one present root and references to nothing
else; used together with a missing root identifier. -/
def srcOneNull : Document :=
  { objects := [((1, 0), .dictionary [("Kind", .name "Thing")])],
    trailer := [], maxId := 1 }

/-- A one-page document whose page carries `/Rotate -500` — a value a
pre-existing file can contain but this tool never stores. -/
def docRot : Document :=
  { objects :=
      [((1, 0), .dictionary [("Type", .name "Catalog"),
                             ("Pages", .reference (2, 0))]),
       ((2, 0), .dictionary [("Type", .name "Pages"),
                             ("Kids", .array [.reference (3, 0)]),
                             ("Count", .integer 1)]),
       ((3, 0), .dictionary [("Type", .name "Page"),
                             ("Parent", .reference (2, 0)),
                             ("Rotate", .integer (-500))])],
    trailer := [("Root", .reference (1, 0))], maxId := 3 }

/-! ### Claim theorems -/

/-- C2: after the reference-rewrite pass, every `Reference` whose old
identifier is a key of the mapping holds the mapped identifier, every
`Reference` whose identifier is not in the mapping is unchanged (first
three conjuncts, via `mapId`), the payload bytes of every stream are
byte-identical after the rewrite (fourth conjunct), and every object
copied into the target by `manual_deep_copy` is stored as exactly the
rewritten clone of its source original (last conjunct). -/
theorem C2_reference_rewrite :
    (∀ m o, refList (update_references_recursive m o) = (refList o).map (mapId m)) ∧
    (∀ (m : List (ObjectId × ObjectId)) id nid,
      alookup m id = some nid → mapId m id = nid) ∧
    (∀ (m : List (ObjectId × ObjectId)) id,
      alookup m id = none → mapId m id = id) ∧
    (∀ m o, payloads (update_references_recursive m o) = payloads o) ∧
    (∀ src tgt ids tgt' m,
      manual_deep_copy src tgt ids = .ok (tgt', m) →
      (∀ key ∈ tgt.objects.map (·.1), key.1 ≤ tgt.maxId) →
      ∀ p ∈ m, ∃ o, src.get p.1 = some o ∧
        tgt'.get p.2 = some (update_references_recursive m o)) := by
  refine ⟨refList_update, ?_, ?_, payloads_update, ?_⟩
  · intro m id nid h
    simp [mapId, h]
  · intro m id h
    simp [mapId, h]
  · intro src tgt ids tgt' m h hkb p hp
    obtain ⟨c1, -⟩ := manual_deep_copy_ok src tgt ids tgt' m h hkb
    obtain ⟨o, ho₁, ho₂, -⟩ := c1 p hp
    exact ⟨o, ho₁, ho₂⟩

/-- The document and mapping `manual_deep_copy` produces on the cycle
example (computed, and checked by `rfl` below). -/
def cycleCopyResult : Document :=
  { objects :=
      [((3, 0), .dictionary [("Next", .reference (4, 0))]),
       ((4, 0), .dictionary [("Next", .reference (3, 0))])],
    trailer := [], maxId := 4 }

def cycleCopyMap : List (ObjectId × ObjectId) :=
  [((1, 0), (3, 0)), ((2, 0), (4, 0))]

/-- Witness for C2 at a concrete input: the copy of the cycle document's
object A is stored rewritten (its reference points at B's copy). -/
theorem C2_witness :
    ∃ o, srcCycle.get (1, 0) = some o ∧
      cycleCopyResult.get (3, 0) =
        some (update_references_recursive cycleCopyMap o) ∧
      manual_deep_copy srcCycle tgtReserved [(1, 0)] =
        .ok (cycleCopyResult, cycleCopyMap) := by
  have h := C2_reference_rewrite.2.2.2.2 srcCycle tgtReserved [(1, 0)]
    cycleCopyResult cycleCopyMap rfl (by decide) ((1, 0), (3, 0)) (by decide)
  obtain ⟨o, ho₁, ho₂⟩ := h
  exact ⟨o, ho₁, ho₂, rfl⟩

/-- C10: a merge invocation with exactly one input path performs a
byte-level copy of the source file to the output path — the outcome is
`copiedBytes` of the input's bytes, with no loading, transplantation or
tree reassembly. -/
theorem C10_single_input_byte_copy
    (load : List Nat → Except String Document) (b : List Nat) :
    merge_pdfs_model load [b] = .ok (.copiedBytes b) := rfl

/-- C8: every invalid input — page number 0 for extract, an empty page
list or a page number 0 for split, an empty page list or an out-of-range
page number for delete, a rotation angle outside `{0, ±90, ±180, ±270}` —
makes the operation return an error during validation, before any
document mutation; since the save step is only reached on `.ok`, no
output file is written for these inputs. -/
theorem C8_invalid_inputs :
    (∀ doc, extract_pdf_page_core doc 0 =
      .error "Page number must be 1-based (greater than 0).") ∧
    (∀ doc, split_pdf_core doc [] =
      .error "The list of pages to extract cannot be empty.") ∧
    (∀ doc pages, 0 ∈ pages → ∃ e, split_pdf_core doc pages = .error e) ∧
    (∀ doc, delete_pages_core doc [] =
      .error "The list of pages to delete cannot be empty.") ∧
    (∀ doc pages p, p ∈ pages → (p = 0 ∨ (getPages doc).length < p) →
      ∃ e, delete_pages_core doc pages = .error e) ∧
    (∀ doc pages rot, rot ≠ 0 → rot ≠ 90 → rot ≠ 180 → rot ≠ 270 →
      rot ≠ -90 → rot ≠ -180 → rot ≠ -270 →
      rotate_pdf_core doc pages rot =
        .error "Invalid rotation angle. Must be one of 0, 90, 180, 270.") := by
  refine ⟨?_, ?_, ?_, ?_, ?_, ?_⟩
  · intro doc
    simp [extract_pdf_page_core]
  · intro doc
    simp [split_pdf_core]
  · intro doc pages h0
    have hne : pages ≠ [] := by
      intro he
      rw [he] at h0
      simp at h0
    obtain ⟨e, he⟩ := resolvePages_zero_mem (getPages doc) pages h0
    refine ⟨e, ?_⟩
    simp only [split_pdf_core, if_neg hne, he]
  · intro doc
    simp [delete_pages_core]
  · intro doc pages p hp hbad
    have hne : pages ≠ [] := by
      intro he
      rw [he] at hp
      simp at hp
    obtain ⟨e, he⟩ := validateDeletePages_err (getPages doc).length pages p hp hbad
    exact ⟨e, by simp only [delete_pages_core, if_neg hne, he]⟩
  · intro doc pages rot h1 h2 h3 h4 h5 h6 h7
    simp [rotate_pdf_core, h1, h2, h3, h4, h5, h6, h7]

/-- Witness for C8 at concrete inputs: extraction of page 0, a split
with page 0, a delete of page 7 from the two-page document and a 45°
rotation all fail. -/
theorem C8_witness :
    extract_pdf_page_core docFlat2 0 =
      .error "Page number must be 1-based (greater than 0)." ∧
    (∃ e, split_pdf_core docFlat2 [1, 0] = .error e) ∧
    (∃ e, delete_pages_core docFlat2 [7] = .error e) ∧
    rotate_pdf_core docFlat2 [1] 45 =
      .error "Invalid rotation angle. Must be one of 0, 90, 180, 270." := by
  refine ⟨C8_invalid_inputs.1 docFlat2, ?_, ?_, ?_⟩
  · exact C8_invalid_inputs.2.2.1 docFlat2 [1, 0] (by decide)
  · refine C8_invalid_inputs.2.2.2.2.1 docFlat2 [7] 7 (by decide) ?_
    right
    show (getPages docFlat2).length < 7
    decide
  · exact C8_invalid_inputs.2.2.2.2.2 docFlat2 [1] 45 (by decide) (by decide)
      (by decide) (by decide) (by decide) (by decide) (by decide)

/-! ### Standalone consequences of `manual_deep_copy` -/

theorem manual_deep_copy_nodup (src tgt : Document) (ids : List ObjectId)
    (tgt' : Document) (m : List (ObjectId × ObjectId))
    (h : manual_deep_copy src tgt ids = .ok (tgt', m)) : (m.map (·.1)).Nodup := by
  simp only [manual_deep_copy] at h
  cases h1 : copyPass1 src freshAlloc "Deep copy loop exceeded limit"
      ((src.objects.length + ids.length) * 2) tgt ids ids [] with
  | error e => rw [h1] at h; simp at h
  | ok res =>
    obtain ⟨tgt1, m1⟩ := res
    rw [h1] at h
    simp only at h
    cases h2 : copyPass2 (update_references_recursive m1)
        "Failed to retrieve copied object during reference update" tgt1 m1 with
    | error e => rw [h2] at h; simp at h
    | ok tgt2 =>
      rw [h2] at h
      simp only [Except.ok.injEq, Prod.mk.injEq] at h
      obtain ⟨-, rfl⟩ := h
      exact copyPass1_nodup_keys src freshAlloc _ _ _ _ _ _ _ _ h1 (by simp)

theorem manual_deep_copy_srcOnly (src tgt : Document) (ids : List ObjectId)
    (tgt' : Document) (m : List (ObjectId × ObjectId))
    (h : manual_deep_copy src tgt ids = .ok (tgt', m)) :
    ∀ k, (alookup m k).isSome → (src.get k).isSome := by
  simp only [manual_deep_copy] at h
  cases h1 : copyPass1 src freshAlloc "Deep copy loop exceeded limit"
      ((src.objects.length + ids.length) * 2) tgt ids ids [] with
  | error e => rw [h1] at h; simp at h
  | ok res =>
    obtain ⟨tgt1, m1⟩ := res
    rw [h1] at h
    simp only at h
    cases h2 : copyPass2 (update_references_recursive m1)
        "Failed to retrieve copied object during reference update" tgt1 m1 with
    | error e => rw [h2] at h; simp at h
    | ok tgt2 =>
      rw [h2] at h
      simp only [Except.ok.injEq, Prod.mk.injEq] at h
      obtain ⟨-, rfl⟩ := h
      intro k hk
      rcases copyPass1_srcOnly src freshAlloc _ _ _ _ _ _ _ _ h1 k hk with h' | h'
      · exact absurd h' (by simp [alookup])
      · exact h'

theorem manual_deep_copy_roots (src tgt : Document) (ids : List ObjectId)
    (tgt' : Document) (m : List (ObjectId × ObjectId))
    (h : manual_deep_copy src tgt ids = .ok (tgt', m)) :
    ∀ id ∈ ids, mappedOrMissing src m id := by
  simp only [manual_deep_copy] at h
  cases h1 : copyPass1 src freshAlloc "Deep copy loop exceeded limit"
      ((src.objects.length + ids.length) * 2) tgt ids ids [] with
  | error e => rw [h1] at h; simp at h
  | ok res =>
    obtain ⟨tgt1, m1⟩ := res
    rw [h1] at h
    simp only at h
    cases h2 : copyPass2 (update_references_recursive m1)
        "Failed to retrieve copied object during reference update" tgt1 m1 with
    | error e => rw [h2] at h; simp at h
    | ok tgt2 =>
      rw [h2] at h
      simp only [Except.ok.injEq, Prod.mk.injEq] at h
      obtain ⟨-, rfl⟩ := h
      exact (copyPass1_closure src freshAlloc _ _ _ _ _ _ _ _ h1
        (fun id hid => hid) (fun id hid => .inl hid)
        (fun k obj hk => absurd hk (by simp [alookup]))).1

/-- C1: `manual_deep_copy` terminates on every input, returning either a
mapping whose keys are pairwise distinct (each identifier is visited at
most once) or the loop-cap error (or pass 2's integrity error); on the
cycle A→B→A it succeeds, producing copies A' = (3,0) and B' = (4,0) that
reference each other and differ from the original identifiers; and a
source whose pop count exceeds `(object count + root count) * 2` makes it
return the cap error instead of looping. -/
theorem C1_deep_copy_termination :
    (∀ src tgt ids res, manual_deep_copy src tgt ids = res →
      (∃ tgt' m, res = .ok (tgt', m) ∧ (m.map (·.1)).Nodup) ∨
      res = .error "Deep copy loop exceeded limit" ∨
      res = .error "Failed to retrieve copied object during reference update") ∧
    manual_deep_copy srcCycle tgtReserved [(1, 0)] =
      .ok (cycleCopyResult, cycleCopyMap) ∧
    cycleCopyResult.get (3, 0) = some (.dictionary [("Next", .reference (4, 0))]) ∧
    cycleCopyResult.get (4, 0) = some (.dictionary [("Next", .reference (3, 0))]) ∧
    ((3, 0) : ObjectId) ≠ (1, 0) ∧ ((4, 0) : ObjectId) ≠ (2, 0) ∧
    manual_deep_copy srcManyDangling emptyDoc [(1, 0)] =
      .error "Deep copy loop exceeded limit" := by
  refine ⟨?_, rfl, rfl, rfl, by decide, by decide, rfl⟩
  intro src tgt ids res h
  cases res with
  | ok r =>
    obtain ⟨tgt', m⟩ := r
    exact .inl ⟨tgt', m, rfl, manual_deep_copy_nodup src tgt ids tgt' m h⟩
  | error e =>
    rcases manual_deep_copy_error src tgt ids e h with h' | h'
    · exact .inr (.inl (by rw [h']))
    · exact .inr (.inr (by rw [h']))

/-- Witness for C1: its universally quantified part applied to the cycle
document. -/
theorem C1_witness :
    (∃ tgt' m, manual_deep_copy srcCycle tgtReserved [(1, 0)] = .ok (tgt', m) ∧
      (m.map (·.1)).Nodup) ∨
    manual_deep_copy srcCycle tgtReserved [(1, 0)] =
      .error "Deep copy loop exceeded limit" ∨
    manual_deep_copy srcCycle tgtReserved [(1, 0)] =
      .error "Failed to retrieve copied object during reference update" :=
  C1_deep_copy_termination.1 srcCycle tgtReserved [(1, 0)] _ rfl

/-- The result of deep-copying the root list `[(1,0), (7,7)]` from
`srcOneNull`, where `(7,7)` resolves to nothing. -/
def resultOneNull : Document :=
  { objects := [((3, 0), .dictionary [("Kind", .name "Thing")])],
    trailer := [], maxId := 3 }

/-- C9: identifiers that do not resolve in the source are skipped — they
are never keys of the returned mapping (first conjunct) — while every
root that does resolve is still copied (second conjunct); concretely, a
deep copy whose root list contains the dangling `(7,7)` still succeeds
and copies the resolvable root (third conjunct); and the requested target
page of an extraction, which comes from the page enumeration, is always
present in the mapping after a successful deep copy, so the orchestrator's
unmapped-page check is the only fatal exit (last conjunct). -/
theorem C9_missing_objects_skipped :
    (∀ src tgt ids tgt' m, manual_deep_copy src tgt ids = .ok (tgt', m) →
      ∀ k, src.get k = none → alookup m k = none) ∧
    (∀ src tgt ids tgt' m, manual_deep_copy src tgt ids = .ok (tgt', m) →
      ∀ id ∈ ids, (src.get id).isSome → (alookup m id).isSome) ∧
    manual_deep_copy srcOneNull tgtReserved [(1, 0), (7, 7)] =
      .ok (resultOneNull, [((1, 0), (3, 0))]) ∧
    (∀ doc pn tid d3 m,
      (getPages doc).get? (pn - 1) = some tid →
      manual_deep_copy doc tgtReserved [tid] = .ok (d3, m) →
      (alookup m tid).isSome) := by
  refine ⟨?_, ?_, rfl, ?_⟩
  · intro src tgt ids tgt' m h k hk
    by_contra hne
    have hs : (alookup m k).isSome := by
      cases hlk : alookup m k with
      | none => exact absurd hlk hne
      | some v => rfl
    have := manual_deep_copy_srcOnly src tgt ids tgt' m h k hs
    rw [hk] at this
    simp at this
  · intro src tgt ids tgt' m h id hid hsome
    rcases manual_deep_copy_roots src tgt ids tgt' m h id hid with h' | h'
    · exact h'
    · rw [h'] at hsome
      simp at hsome
  · intro doc pn tid d3 m hget h
    have htid : tid ∈ getPages doc := List.get?_mem hget
    obtain ⟨es, hes, -⟩ := getPages_mem doc tid htid
    rcases manual_deep_copy_roots doc tgtReserved [tid] d3 m h tid
        (List.mem_singleton.2 rfl) with h' | h'
    · exact h'
    · rw [hes] at h'
      simp at h'

/-- Witness for C9: the quantified conjuncts applied to the concrete
dangling-root example and the one-page document. -/
theorem C9_witness :
    alookup [((1, 0), (3, 0))] ((7, 7) : ObjectId) = none ∧
    (alookup [((1, 0), (3, 0))] ((1, 0) : ObjectId)).isSome := by
  constructor
  · exact C9_missing_objects_skipped.1 srcOneNull tgtReserved [(1, 0), (7, 7)]
      resultOneNull [((1, 0), (3, 0))] C9_missing_objects_skipped.2.2.1
      (7, 7) rfl
  · exact C9_missing_objects_skipped.2.1 srcOneNull tgtReserved [(1, 0), (7, 7)]
      resultOneNull [((1, 0), (3, 0))] C9_missing_objects_skipped.2.2.1
      (1, 0) (by decide) (by decide)

/-! ### C7: rotation arithmetic -/

/-- `docRot` after one 90° rotation. -/
def docRot50 : Document :=
  { objects :=
      [((1, 0), .dictionary [("Type", .name "Catalog"),
                             ("Pages", .reference (2, 0))]),
       ((2, 0), .dictionary [("Type", .name "Pages"),
                             ("Kids", .array [.reference (3, 0)]),
                             ("Count", .integer 1)]),
       ((3, 0), .dictionary [("Type", .name "Page"),
                             ("Parent", .reference (2, 0)),
                             ("Rotate", .integer (-50))])],
    trailer := [("Root", .reference (1, 0))], maxId := 3 }

/-- `docRot` after two 90° rotations: `/Rotate 40`. -/
def docRot40 : Document :=
  { objects :=
      [((1, 0), .dictionary [("Type", .name "Catalog"),
                             ("Pages", .reference (2, 0))]),
       ((2, 0), .dictionary [("Type", .name "Pages"),
                             ("Kids", .array [.reference (3, 0)]),
                             ("Count", .integer 1)]),
       ((3, 0), .dictionary [("Type", .name "Page"),
                             ("Parent", .reference (2, 0)),
                             ("Rotate", .integer 40)])],
    trailer := [("Root", .reference (1, 0))], maxId := 3 }

/-- `docRot` after one 180° rotation: `/Rotate -320`. -/
def docRotNeg320 : Document :=
  { objects :=
      [((1, 0), .dictionary [("Type", .name "Catalog"),
                             ("Pages", .reference (2, 0))]),
       ((2, 0), .dictionary [("Type", .name "Pages"),
                             ("Kids", .array [.reference (3, 0)]),
                             ("Count", .integer 1)]),
       ((3, 0), .dictionary [("Type", .name "Page"),
                             ("Parent", .reference (2, 0)),
                             ("Rotate", .integer (-320))])],
    trailer := [("Root", .reference (1, 0))], maxId := 3 }

/-- C7 counterexample: on a page whose pre-existing rotation is −500,
rotating twice by 90° stores 40, while rotating once by 180° stores −320:
the two stored values differ, and the once-180° stored value −320 also
differs from the mathematical `(−500 + 180) mod 360 = 40`.  So neither
"twice 90° stores the same value as once 180°" nor "the stored rotation
is always (existing + angle) mod 360" holds as stated for every existing
rotation value. -/
theorem C7_rotation_counterexample :
    rotate_pdf_core docRot [] 90 = .ok docRot50 ∧
    rotate_pdf_core docRot50 [] 90 = .ok docRot40 ∧
    rotate_pdf_core docRot [] 180 = .ok docRotNeg320 ∧
    (40 : Int) ≠ -320 ∧
    ((-320 : Int) ≠ ((-500 : Int) + 180) % 360) := by
  refine ⟨rfl, rfl, rfl, by decide, by decide⟩

/-- C7 amended: the per-page update stores the Rust-truncated remainder
`(existing + angle) % 360` (with the `i32` casts of the source), where
the existing rotation defaults to 0 when the field is absent or not an
integer; the stored value is therefore always strictly between −360 and
360; and rotating twice by 90° stores the same value as rotating once by
180° whenever the existing rotation lies strictly between −360 and 360 —
in particular whenever it was stored by this function or was absent. -/
theorem C7_rotation_amended :
    (∀ (doc : Document) (pid : ObjectId) es rot,
      doc.get pid = some (.dictionary es) →
      rotateLoop rot doc [pid] =
        .ok (doc.set pid (.dictionary (aset es "Rotate"
          (.integer (newRotationValue (currentRotation es) rot)))))) ∧
    (∀ current rotation : Int,
      (newRotationValue current rotation).natAbs < 360) ∧
    (∀ r : Int, -360 < r → r < 360 →
      newRotationValue (newRotationValue r 90) 90 = newRotationValue r 180) :=
  ⟨fun doc pid es rot h => rotateLoop_single rot doc pid es h,
    newRotationValue_natAbs, newRotationValue_twice_90⟩

/-- Witness for C7 (amended): the single-page update applied to the
two-page document's first page, and the twice-90° law at the stored
value 90. -/
theorem C7_witness :
    rotateLoop 90 docFlat2 [(3, 0)] =
      .ok (docFlat2.set (3, 0) (.dictionary (aset
        [("Type", .name "Page"), ("Parent", .reference (2, 0))] "Rotate"
        (.integer (newRotationValue (currentRotation
          [("Type", .name "Page"), ("Parent", .reference (2, 0))]) 90))))) ∧
    newRotationValue (newRotationValue 90 90) 90 = newRotationValue 90 180 := by
  constructor
  · exact C7_rotation_amended.1 docFlat2 (3, 0)
      [("Type", .name "Page"), ("Parent", .reference (2, 0))] 90 rfl
  · exact C7_rotation_amended.2.2 90 (by decide) (by decide)

/-- Replacing the trailer does not change object lookups. -/
theorem Document.get_with_trailer (E : Document) (t : List (String × PdfObj))
    (id : ObjectId) :
    (({ objects := E.objects, trailer := t, maxId := E.maxId } : Document)).get id =
      E.get id := rfl

/-- C5: for every successful split with request list `[p1, …, pn]`
(repeats allowed), the output tree node's Kids array is exactly the
request list mapped through a single page-to-copy assignment — so its
length is `n`, its `i`-th entry references the transplanted copy of page
`p_i`, Kids order equals request order, a repeated page number yields
duplicate Kids entries referencing the same transplanted page object —
and the node's Count equals `n`; each assigned copy is a dictionary whose
`Parent` is the new tree node. -/
theorem C5_split_kids_order (doc : Document) (pages : List Nat) (out : Document)
    (h : split_pdf_core doc pages = .ok out) :
    ∃ assign : Nat → ObjectId,
      out.get (1, 0) = some (.dictionary
        [("Type", .name "Pages"),
         ("Kids", .array (pages.map (fun p => PdfObj.reference (assign p)))),
         ("Count", .integer pages.length)]) ∧
      (∀ p ∈ pages, ∃ es, out.get (assign p) = some (.dictionary es) ∧
        alookup es "Parent" = some (.reference (1, 0))) := by
  simp only [split_pdf_core] at h
  by_cases hne : pages = []
  · rw [if_pos hne] at h
    simp at h
  · rw [if_neg hne] at h
    cases hres : resolvePages (getPages doc) pages with
    | error e => rw [hres] at h; simp at h
    | ok pageIds =>
      rw [hres] at h
      dsimp only at h
      cases hmdc : manual_deep_copy doc
          (emptyDoc.newObjectId.1.newObjectId.1) pageIds with
      | error e => rw [hmdc] at h; simp at h
      | ok res =>
        obtain ⟨d3, m⟩ := res
        rw [hmdc] at h
        dsimp only at h
        cases hbk : buildKids m (emptyDoc.newObjectId.2) d3 pageIds with
        | error e => rw [hbk] at h; simp at h
        | ok res2 =>
          obtain ⟨d4, newKids⟩ := res2
          rw [hbk] at h
          simp only [Except.ok.injEq] at h
          obtain ⟨b1, b2, b3, b4⟩ := buildKids_ok m _ pageIds d3 d4 newKids hbk
          obtain ⟨r1, r2⟩ := resolvePages_ok (getPages doc) pages pageIds hres
          obtain ⟨c1, -, -, -, -, -⟩ := manual_deep_copy_ok doc
            (emptyDoc.newObjectId.1.newObjectId.1) pageIds d3 m hmdc
            (by intro key hkey;
                simp [emptyDoc, Document.newObjectId] at hkey)
          simp only [show (emptyDoc.newObjectId.2 : ObjectId) = (1, 0) from rfl,
            show ((emptyDoc.newObjectId.1.newObjectId.2 : ObjectId)) = (2, 0) from rfl]
            at h b4
          refine ⟨fun p => mapId m ((getPages doc).get? (p - 1) |>.getD (0, 0)),
            ?_, ?_⟩
          · rw [← h, Document.get_with_trailer,
              Document.get_set_ne _ _ _ _ (by decide),
              Document.get_set_self]
            have hk : newKids = pages.map (fun p =>
                PdfObj.reference (mapId m ((getPages doc).get? (p - 1) |>.getD (0, 0)))) := by
              rw [b1, r2, List.map_map]
              rfl
            rw [hk]
          · intro p hp
            have hold : ((getPages doc).get? (p - 1) |>.getD (0, 0)) ∈ pageIds := by
              rw [r2]
              exact List.mem_map.2 ⟨p, hp, rfl⟩
            obtain ⟨es, he₁, he₂⟩ := b4 _ hold
            refine ⟨es, ?_, he₂⟩
            have hmem : (((getPages doc).get? (p - 1) |>.getD (0, 0)),
                mapId m ((getPages doc).get? (p - 1) |>.getD (0, 0))) ∈ m := by
              have hsome := b2 _ hold
              cases hlk : alookup m ((getPages doc).get? (p - 1) |>.getD (0, 0)) with
              | none => rw [hlk] at hsome; simp at hsome
              | some nid =>
                have hmapid : mapId m ((getPages doc).get? (p - 1) |>.getD (0, 0)) = nid := by
                  unfold mapId
                  rw [hlk]
                  rfl
                rw [hmapid]
                exact mem_of_alookup m _ nid hlk
            obtain ⟨-, -, -, hhigh⟩ := c1 _ hmem
            have hhigh' : 2 <
                (mapId m ((getPages doc).get? (p - 1) |>.getD (0, 0))).1 := hhigh
            have hne1 : ((1, 0) : ObjectId) ≠
                mapId m ((getPages doc).get? (p - 1) |>.getD (0, 0)) := by
              intro he
              rw [← he] at hhigh'
              simp at hhigh'
            have hne2 : ((2, 0) : ObjectId) ≠
                mapId m ((getPages doc).get? (p - 1) |>.getD (0, 0)) := by
              intro he
              rw [← he] at hhigh'
              simp at hhigh'
            rw [← h, Document.get_with_trailer,
              Document.get_set_ne _ _ _ _ hne2,
              Document.get_set_ne _ _ _ _ hne1]
            exact he₁

theorem refListEntries_of_mem (es : List (String × PdfObj)) (e : String × PdfObj)
    (he : e ∈ es) (r : ObjectId) (hr : r ∈ refList e.2) : r ∈ refListEntries es := by
  induction es with
  | nil => simp at he
  | cons hd tl ih =>
    obtain ⟨k, v⟩ := hd
    rcases List.mem_cons.1 he with h' | h'
    · subst h'
      exact List.mem_append_left _ hr
    · exact List.mem_append_right _ (ih h')

theorem update_name (m : List (ObjectId × ObjectId)) (n : String) :
    update_references_recursive m (.name n) = .name n := rfl

/-- C6: a successful single-page extraction yields a document whose
trailer `Root` references the new catalog `(2,0)`, whose catalog's
`Pages` references the new tree node `(1,0)`, whose tree node has exactly
one Kids entry (the copied page) and Count 1, whose copied page's
`Parent` is the tree node, which has exactly one page, and in which every
reference of the copied page (content stream, resources, …) resolves —
provided every reference of the source page resolved in the source. -/
theorem C6_extract_single_page (doc : Document) (pn : Nat) (tid : ObjectId)
    (out : Document)
    (htid : (getPages doc).get? (pn - 1) = some tid)
    (hrefs : ∀ o, doc.get tid = some o → ∀ r ∈ refList o, (doc.get r).isSome)
    (h : extract_pdf_page_core doc pn = .ok out) :
    ∃ npid es,
      alookup out.trailer "Root" = some (.reference (2, 0)) ∧
      out.get (2, 0) = some (.dictionary
        [("Type", .name "Catalog"), ("Pages", .reference (1, 0))]) ∧
      out.get (1, 0) = some (.dictionary
        [("Type", .name "Pages"),
         ("Kids", .array [.reference npid]),
         ("Count", .integer 1)]) ∧
      out.get npid = some (.dictionary es) ∧
      alookup es "Parent" = some (.reference (1, 0)) ∧
      getPages out = [npid] ∧
      (∀ r ∈ refList (.dictionary es), (out.get r).isSome) := by
  simp only [extract_pdf_page_core] at h
  by_cases hpn : pn = 0
  · rw [if_pos hpn] at h
    simp at h
  · rw [if_neg hpn] at h
    rw [htid] at h
    dsimp only at h
    cases hmdc : manual_deep_copy doc
        (emptyDoc.newObjectId.1.newObjectId.1) [tid] with
    | error e => rw [hmdc] at h; simp at h
    | ok res =>
      obtain ⟨d3, m⟩ := res
      rw [hmdc] at h
      dsimp only at h
      cases hpm : alookup m tid with
      | none => rw [hpm] at h; simp at h
      | some npid =>
        rw [hpm] at h
        dsimp only at h
        cases hget : d3.get npid with
        | none => rw [hget] at h; simp at h
        | some o =>
          rw [hget] at h
          cases o with
          | dictionary es₀ =>
            dsimp only at h
            simp only [show (emptyDoc.newObjectId.2 : ObjectId) = (1, 0) from rfl,
              show ((emptyDoc.newObjectId.1.newObjectId.2 : ObjectId)) = (2, 0) from rfl,
              Except.ok.injEq] at h
            obtain ⟨c1, -, c3, -, -, -⟩ := manual_deep_copy_ok doc
              (emptyDoc.newObjectId.1.newObjectId.1) [tid] d3 m hmdc
              (by intro key hkey
                  simp [emptyDoc, Document.newObjectId] at hkey)
            have hmemt : (tid, npid) ∈ m := mem_of_alookup m tid npid hpm
            obtain ⟨oSrc, hoSrc, hd3, hhigh⟩ := c1 (tid, npid) hmemt
            -- identify the source page object
            have htidmem : tid ∈ getPages doc := List.get?_mem htid
            obtain ⟨esT, hesT, htypeT⟩ := getPages_mem doc tid htidmem
            have hoe : oSrc = .dictionary esT := by
              rw [hoSrc] at hesT
              exact (Option.some.injEq _ _ ▸ hesT).symm ▸ rfl
            subst hoe
            have hes₀ : es₀ = updateRefsEntries m esT := by
              rw [hd3] at hget
              have := Option.some.injEq _ _ ▸ hget
              simp only [update_references_recursive] at this
              cases this
              rfl
            have hnp1 : npid ≠ (1, 0) := by
              intro he
              rw [he] at hhigh
              simp [emptyDoc, Document.newObjectId] at hhigh
            have hnp2 : npid ≠ (2, 0) := by
              intro he
              rw [he] at hhigh
              simp [emptyDoc, Document.newObjectId] at hhigh
            refine ⟨npid, aset es₀ "Parent" (.reference (1, 0)), ?_, ?_, ?_, ?_, ?_, ?_, ?_⟩
            · rw [← h]
              exact alookup_aset_self _ "Root" _
            · rw [← h, Document.get_with_trailer]
              exact Document.get_set_self _ _ _
            · rw [← h, Document.get_with_trailer,
                Document.get_set_ne _ _ _ _ (by decide)]
              exact Document.get_set_self _ _ _
            · rw [← h, Document.get_with_trailer,
                Document.get_set_ne _ _ _ _ (fun he => hnp2 he.symm),
                Document.get_set_ne _ _ _ _ (fun he => hnp1 he.symm)]
              exact Document.get_set_self _ _ _
            · exact alookup_aset_self _ "Parent" _
            · -- page enumeration of the output
              have htrail : alookup out.trailer "Root" = some (.reference (2, 0)) := by
                rw [← h]
                exact alookup_aset_self _ "Root" _
              have hcat : out.get (2, 0) = some (.dictionary
                  [("Type", .name "Catalog"), ("Pages", .reference (1, 0))]) := by
                rw [← h, Document.get_with_trailer]
                exact Document.get_set_self _ _ _
              have hnode : out.get (1, 0) = some (.dictionary
                  [("Type", .name "Pages"),
                   ("Kids", .array [.reference npid]),
                   ("Count", .integer 1)]) := by
                rw [← h, Document.get_with_trailer,
                  Document.get_set_ne _ _ _ _ (by decide)]
                exact Document.get_set_self _ _ _
              have hpage : out.get npid = some
                  (.dictionary (aset es₀ "Parent" (.reference (1, 0)))) := by
                rw [← h, Document.get_with_trailer,
                  Document.get_set_ne _ _ _ _ (fun he => hnp2 he.symm),
                  Document.get_set_ne _ _ _ _ (fun he => hnp1 he.symm)]
                exact Document.get_set_self _ _ _
              have htype : dictType (aset es₀ "Parent" (.reference (1, 0))) =
                  some "Page" := by
                simp only [dictType]
                rw [alookup_aset_ne _ _ _ _ (by decide), hes₀,
                  alookup_updateRefsEntries]
                simp only [dictType] at htypeT
                cases halk : alookup esT "Type" with
                | none => rw [halk] at htypeT; simp at htypeT
                | some oT =>
                  rw [halk] at htypeT
                  cases oT <;> simp_all [update_name]
              have hpagesRef : alookup
                  [("Type", PdfObj.name "Catalog"),
                   ("Pages", PdfObj.reference (1, 0))] "Pages" =
                  some (PdfObj.reference ((1, 0) : ObjectId)) := rfl
              simp only [getPages, htrail, hcat, hnode, hpagesRef]
              have hkids : kidsArray
                  [("Type", PdfObj.name "Pages"),
                   ("Kids", PdfObj.array [PdfObj.reference npid]),
                   ("Count", PdfObj.integer 1)] = [PdfObj.reference npid] := rfl
              rw [hkids]
              have := pageList_flat out (out.objects.length) [npid]
                (fun id hid => by
                  have hide : id = npid := by simpa using hid
                  subst hide
                  exact ⟨aset es₀ "Parent" (.reference (1, 0)), hpage, htype⟩)
              simpa using this
            · -- every reference of the copied page resolves in the output
              intro r hr
              have hmono : ∀ x, (d3.get x).isSome → (out.get x).isSome := by
                intro x hx
                rw [← h, Document.get_with_trailer]
                exact alookup_aset_isSome_mono _ _ _ _
                  (alookup_aset_isSome_mono _ _ _ _
                    (alookup_aset_isSome_mono _ _ _ _ hx))
              simp only [refList] at hr
              obtain ⟨e, he, hre⟩ := refListEntries_mem _ r hr
              rcases mem_aset es₀ "Parent" (.reference (1, 0)) e he with h' | h'
              · rw [h'] at hre
                simp only [refList, List.mem_singleton] at hre
                subst hre
                rw [← h, Document.get_with_trailer,
                  Document.get_set_ne _ _ _ _ (by decide),
                  Document.get_set_self]
                rfl
              · have hr₀ : r ∈ refListEntries es₀ :=
                  refListEntries_of_mem es₀ e h' r hre
                rw [hes₀, refListEntries_update] at hr₀
                rcases List.mem_map.1 hr₀ with ⟨r₀, hr₀mem, hr₀eq⟩
                have hsrcref : (doc.get r₀).isSome :=
                  hrefs (.dictionary esT) hoSrc r₀ hr₀mem
                have hclos := c3 tid (.dictionary esT)
                  (by rw [hpm]; rfl) hoSrc r₀ hr₀mem
                rcases hclos with hmapped | hmiss
                · cases hlk : alookup m r₀ with
                  | none => rw [hlk] at hmapped; simp at hmapped
                  | some nid' =>
                    have hmid : mapId m r₀ = nid' := by
                      unfold mapId
                      rw [hlk]
                      rfl
                    have hmem' : (r₀, nid') ∈ m := mem_of_alookup m r₀ nid' hlk
                    obtain ⟨o', -, hd3', -⟩ := c1 (r₀, nid') hmem'
                    have : (d3.get nid').isSome := by rw [hd3']; rfl
                    rw [← hr₀eq, hmid]
                    exact hmono nid' this
                · rw [hmiss] at hsrcref
                  simp at hsrcref
          | null => simp at h
          | boolean b => simp at h
          | integer i => simp at h
          | real r => simp at h
          | name n => simp at h
          | str s hx => simp at h
          | array xs => simp at h
          | reference rr => simp at h
          | stream es c => simp at h

/-- The output of `split_pdf_core docFlat2 [2, 1, 2]`. -/
def splitOut : Document :=
  { objects :=
      [((3, 0), .dictionary [("Type", .name "Page"),
                             ("Parent", .reference (1, 0))]),
       ((4, 0), .dictionary [("Type", .name "Page"),
                             ("Parent", .reference (1, 0))]),
       ((5, 0), .dictionary [("Type", .name "Pages"),
                             ("Kids", .array [.reference (4, 0), .reference (3, 0)]),
                             ("Count", .integer 2)]),
       ((1, 0), .dictionary [("Type", .name "Pages"),
                             ("Kids", .array [.reference (3, 0), .reference (4, 0),
                                              .reference (3, 0)]),
                             ("Count", .integer 3)]),
       ((2, 0), .dictionary [("Type", .name "Catalog"),
                             ("Pages", .reference (1, 0))])],
    trailer := [("Root", .reference (2, 0))], maxId := 5 }

/-- Witness for C5: the split request `[2, 1, 2]` on the flat two-page
document — Kids has three entries, in request order, with the repeated
page 2 yielding two references to the same copy. -/
theorem C5_witness :
    ∃ assign : Nat → ObjectId,
      splitOut.get (1, 0) = some (.dictionary
        [("Type", .name "Pages"),
         ("Kids", .array ([2, 1, 2].map (fun p => PdfObj.reference (assign p)))),
         ("Count", .integer ([2, 1, 2] : List Nat).length)]) ∧
      (∀ p ∈ ([2, 1, 2] : List Nat), ∃ es,
        splitOut.get (assign p) = some (.dictionary es) ∧
        alookup es "Parent" = some (.reference (1, 0))) :=
  C5_split_kids_order docFlat2 [2, 1, 2] splitOut rfl

/-- The output of `extract_pdf_page_core docFlat1 1`. -/
def extractOut : Document :=
  { objects :=
      [((3, 0), .dictionary [("Type", .name "Page"),
                             ("Parent", .reference (1, 0)),
                             ("Contents", .reference (5, 0))]),
       ((4, 0), .dictionary [("Type", .name "Pages"),
                             ("Kids", .array [.reference (3, 0)]),
                             ("Count", .integer 1)]),
       ((5, 0), .stream [("Length", .integer 3)] [1, 2, 3]),
       ((1, 0), .dictionary [("Type", .name "Pages"),
                             ("Kids", .array [.reference (3, 0)]),
                             ("Count", .integer 1)]),
       ((2, 0), .dictionary [("Type", .name "Catalog"),
                             ("Pages", .reference (1, 0))])],
    trailer := [("Root", .reference (2, 0))], maxId := 5 }

/-- Witness for C6: extracting page 1 of the flat one-page document with
a content stream. -/
theorem C6_witness :
    ∃ npid es,
      alookup extractOut.trailer "Root" = some (.reference (2, 0)) ∧
      extractOut.get (2, 0) = some (.dictionary
        [("Type", .name "Catalog"), ("Pages", .reference (1, 0))]) ∧
      extractOut.get (1, 0) = some (.dictionary
        [("Type", .name "Pages"),
         ("Kids", .array [.reference npid]),
         ("Count", .integer 1)]) ∧
      extractOut.get npid = some (.dictionary es) ∧
      alookup es "Parent" = some (.reference (1, 0)) ∧
      getPages extractOut = [npid] ∧
      (∀ r ∈ refList (.dictionary es), (extractOut.get r).isSome) := by
  refine C6_extract_single_page docFlat1 1 (1, 0) extractOut rfl ?_ rfl
  intro o ho r hr
  have hoe : o = .dictionary [("Type", .name "Page"),
      ("Parent", .reference (2, 0)), ("Contents", .reference (4, 0))] := by
    have : docFlat1.get (1, 0) = some (.dictionary [("Type", .name "Page"),
        ("Parent", .reference (2, 0)), ("Contents", .reference (4, 0))]) := rfl
    rw [this] at ho
    exact (Option.some.injEq _ _ ▸ ho).symm ▸ rfl
  subst hoe
  have hre : r ∈ [((2, 0) : ObjectId), (4, 0)] := hr
  rcases List.mem_cons.1 hre with h' | h'
  · subst h'
    rfl
  · have h'' : r = ((4, 0) : ObjectId) := by simpa using h'
    subst h''
    rfl

/-- Replacing the max-id counter does not change object lookups. -/
theorem Document.get_with_maxId (E : Document) (n : Nat) (id : ObjectId) :
    (({ objects := E.objects, trailer := E.trailer, maxId := n } : Document)).get id =
      E.get id := rfl

theorem updMerge_name (m : List (ObjectId × ObjectId)) (tpid : ObjectId)
    (n : String) : update_references_recursive_merge m tpid (.name n) = .name n := rfl

/-- The merge rewriter on a `/Type /Page` dictionary: `Parent` is forced
to the target tree node and `Type` is untouched. -/
theorem updMerge_page_dict (m : List (ObjectId × ObjectId)) (tpid : ObjectId)
    (es : List (String × PdfObj)) (htype : dictType es = some "Page") :
    ∃ es', update_references_recursive_merge m tpid (.dictionary es) =
        .dictionary es' ∧
      alookup es' "Parent" = some (.reference tpid) ∧
      dictType es' = some "Page" := by
  have hpage : isPageDict es = true := (isPageDict_iff es).2 htype
  refine ⟨aset (updMergeEntries m tpid true es) "Parent"
    (.reference tpid), ?_, ?_, ?_⟩
  · simp [update_references_recursive_merge, hpage]
  · exact alookup_aset_self _ "Parent" _
  · simp only [dictType]
    rw [alookup_aset_ne _ _ _ _ (by decide), alookup_updMergeEntries]
    simp only [dictType] at htype
    cases halk : alookup es "Type" with
    | none => rw [halk] at htype; simp at htype
    | some oT =>
      rw [halk] at htype
      cases oT <;> simp_all [updMerge_name]

/-- Unfolding of `getPages` along a resolved trailer→catalog→root-node
chain. -/
theorem getPages_of_chain (doc : Document) (cid tpid : ObjectId)
    (cat es : List (String × PdfObj))
    (h1 : alookup doc.trailer "Root" = some (.reference cid))
    (h2 : doc.get cid = some (.dictionary cat))
    (h3 : alookup cat "Pages" = some (.reference tpid))
    (h4 : doc.get tpid = some (.dictionary es)) :
    getPages doc = pageList doc (doc.objects.length + 1) (kidsArray es) := by
  simp only [getPages, h1, h2, h3, h4]

/-- C3 (amended): for a first document whose root tree node is flat —
its Kids reference its pages directly — a successful two-document merge
yields `a + b` pages, a root-node Count of `a + b`, and every page copied
from the second document re-parented onto the first document's tree node,
provided the two documents' max-id counters sum below `2 ^ 32` (so the
`u32` identifier arithmetic of merger.rs does not wrap).
(Without the flatness assumption the page-count conjunct still holds but
the Count conjunct fails — the code sets Count to the root's Kids length
plus `b` — see the counterexample.) -/
theorem C3_merge_pages_amended
    (doc1 doc2 out : Document)
    (cid tpid : ObjectId) (cat es₁ : List (String × PdfObj))
    (pageIds₁ : List ObjectId)
    (hroot : alookup doc1.trailer "Root" = some (.reference cid))
    (hcat : doc1.get cid = some (.dictionary cat))
    (hpages : alookup cat "Pages" = some (.reference tpid))
    (hcidne : cid ≠ tpid)
    (hnode : doc1.get tpid = some (.dictionary es₁))
    (htype₁ : dictType es₁ = some "Pages")
    (hkids : alookup es₁ "Kids" = some (.array (pageIds₁.map PdfObj.reference)))
    (hflat : ∀ id ∈ pageIds₁, ∃ es, doc1.get id = some (.dictionary es) ∧
      dictType es = some "Page")
    (hkb1 : ∀ key ∈ doc1.objects.map (·.1), key.1 ≤ doc1.maxId)
    (hkb2 : ∀ key ∈ doc2.objects.map (·.1), 1 ≤ key.1 ∧ key.1 ≤ doc2.maxId)
    (hovf : doc1.maxId + doc2.maxId < 2 ^ 32)
    (h : merge_many_core doc1 [doc2] = .ok out) :
    getPages doc1 = pageIds₁ ∧
    (getPages out).length = (getPages doc1).length + (getPages doc2).length ∧
    (∃ es', out.get tpid = some (.dictionary es') ∧
      alookup es' "Count" = some (.integer
        ((getPages doc1).length + (getPages doc2).length))) ∧
    (∀ pid ∈ getPages doc2, ∃ esP,
      out.get (pid.1 + doc1.maxId, pid.2) = some (.dictionary esP) ∧
      alookup esP "Parent" = some (.reference tpid)) := by
  have hka : kidsArray es₁ = pageIds₁.map PdfObj.reference := by
    simp only [kidsArray, hkids]
  have hgp1 : getPages doc1 = pageIds₁ := by
    simp only [getPages, hroot, hcat, hpages, hnode, hka]
    exact pageList_flat doc1 doc1.objects.length pageIds₁ hflat
  have hrpr : rootPagesRef doc1 = some tpid := by
    simp only [rootPagesRef, hroot, hcat, hpages]
  simp only [merge_many_core, hrpr] at h
  simp only [mergeLoop] at h
  cases hms : merge_and_shift_objects doc1 doc2 doc1.maxId tpid with
  | error e => rw [hms] at h; simp at h
  | ok res =>
    obtain ⟨tgt', m⟩ := res
    rw [hms] at h
    dsimp only at h
    cases hcnk : collectNewKids m (getPages doc2) with
    | error e => rw [hcnk] at h; simp at h
    | ok newKids =>
      rw [hcnk] at h
      dsimp only [mergeLoop] at h
      rw [Nat.mod_eq_of_lt hovf] at h
      obtain ⟨s1, s2, s3, s4, s5, s6, s7, s8, s9⟩ :=
        merge_and_shift_ok doc1 doc2 doc1.maxId tpid tgt' m hms
          (fun key hk => (hkb2 key hk).1)
          (fun key hk => by have := (hkb2 key hk).2; omega)
      obtain ⟨k1, k2⟩ := collectNewKids_ok m (getPages doc2) newKids hcnk
      have htpbound : tpid.1 ≤ doc1.maxId := by
        refine hkb1 tpid (mem_keys_of_alookup_isSome doc1.objects tpid ?_)
        rw [show doc1.get tpid = alookup doc1.objects tpid from rfl] at hnode
        rw [hnode]
        rfl
      have hnodeget : tgt'.get tpid = some (.dictionary es₁) := by
        rw [s3 tpid htpbound, hnode]
      rw [show ({ tgt' with maxId := doc1.maxId + doc2.maxId } : Document).get tpid =
          tgt'.get tpid from rfl, hnodeget] at h
      dsimp only at h
      rw [hkids] at h
      dsimp only at h
      simp only [Except.ok.injEq] at h
      -- shifted identifiers of the second document's pages
      have hshift : ∀ pid ∈ getPages doc2,
          mapId m pid = (pid.1 + doc1.maxId, pid.2) := by
        intro pid hpid
        have hsome := k1 pid hpid
        cases hlk : alookup m pid with
        | none => rw [hlk] at hsome; simp at hsome
        | some nid =>
          have hmem : (pid, nid) ∈ m := mem_of_alookup m pid nid hlk
          have hsh := s1 (pid, nid) hmem
          unfold mapId
          rw [hlk]
          exact hsh
      have hnewKids : newKids = (getPages doc2).map
          (fun pid => PdfObj.reference (pid.1 + doc1.maxId, pid.2)) := by
        rw [k2]
        exact List.map_congr_left (fun pid hpid => by rw [hshift pid hpid])
      -- every copied page in the final document
      have hpageOut : ∀ pid ∈ getPages doc2, ∃ esP,
          out.get (pid.1 + doc1.maxId, pid.2) = some (.dictionary esP) ∧
          alookup esP "Parent" = some (.reference tpid) ∧
          dictType esP = some "Page" := by
        intro pid hpid
        have hsome := k1 pid hpid
        cases hlk : alookup m pid with
        | none => rw [hlk] at hsome; simp at hsome
        | some nid =>
          have hmem : (pid, nid) ∈ m := mem_of_alookup m pid nid hlk
          have hnid : nid = (pid.1 + doc1.maxId, pid.2) := s1 (pid, nid) hmem
          obtain ⟨o, ho₁, ho₂⟩ := s2 (pid, nid) hmem
          obtain ⟨esP₀, hesP₀, htypeP₀⟩ := getPages_mem doc2 pid hpid
          have hoe : o = .dictionary esP₀ := by
            rw [show (pid, nid).1 = pid from rfl, hesP₀] at ho₁
            exact (Option.some.injEq _ _ ▸ ho₁).symm ▸ rfl
          subst hoe
          obtain ⟨esP, hup, hpar, htyp⟩ := updMerge_page_dict m tpid esP₀ htypeP₀
          rw [hup] at ho₂
          have hpidpos : 1 ≤ pid.1 := by
            refine (hkb2 pid (mem_keys_of_alookup_isSome doc2.objects pid ?_)).1
            rw [show doc2.get pid = alookup doc2.objects pid from rfl] at hesP₀
            rw [hesP₀]
            rfl
          have hnetp : tpid ≠ nid := by
            intro he
            rw [hnid] at he
            have := congrArg Prod.fst he
            simp at this
            omega
          refine ⟨esP, ?_, hpar, htyp⟩
          rw [← hnid, ← h, Document.get_set_ne _ _ _ _ hnetp]
          exact ho₂
      -- structure of the final document
      have hout_tpid : out.get tpid = some (.dictionary
          (aset (aset es₁ "Kids"
            (.array (pageIds₁.map PdfObj.reference ++ newKids)))
            "Count" (.integer (pageIds₁.map PdfObj.reference ++ newKids).length))) := by
        rw [← h]
        exact Document.get_set_self _ _ _
      have hcidbound : cid.1 ≤ doc1.maxId := by
        refine hkb1 cid (mem_keys_of_alookup_isSome doc1.objects cid ?_)
        rw [show doc1.get cid = alookup doc1.objects cid from rfl] at hcat
        rw [hcat]
        rfl
      have htpcid : tpid ≠ cid := fun he => hcidne he.symm
      have hout_cid : out.get cid = some (.dictionary cat) := by
        rw [← h, Document.get_set_ne _ _ _ _ htpcid,
          show ({ tgt' with maxId := doc1.maxId + doc2.maxId } : Document).get cid =
            tgt'.get cid from rfl, s3 cid hcidbound, hcat]
      have hout_tr : alookup out.trailer "Root" = some (.reference cid) := by
        have h1 : out.trailer = tgt'.trailer := by rw [← h]; rfl
        rw [h1, s8, hroot]
      have hkaOut : kidsArray
          (aset (aset es₁ "Kids"
            (.array (pageIds₁.map PdfObj.reference ++ newKids)))
            "Count" (.integer (pageIds₁.map PdfObj.reference ++ newKids).length)) =
          pageIds₁.map PdfObj.reference ++ newKids := by
        simp only [kidsArray]
        rw [alookup_aset_ne _ _ _ _ (by decide), alookup_aset_self]
      have hgpo : getPages out = pageIds₁ ++
          (getPages doc2).map (fun pid => (pid.1 + doc1.maxId, pid.2)) := by
        have hleaf : ∀ id ∈ pageIds₁ ++
            (getPages doc2).map (fun pid => (pid.1 + doc1.maxId, pid.2)),
            ∃ es, out.get id = some (.dictionary es) ∧
              dictType es = some "Page" := ?_
        case _ =>
          have hflatOut := pageList_flat out out.objects.length _ hleaf
          rw [getPages_of_chain out cid tpid cat _ hout_tr hout_cid hpages hout_tpid,
            hkaOut,
            show List.map PdfObj.reference pageIds₁ ++ newKids =
              (pageIds₁ ++ (getPages doc2).map
                (fun pid => (pid.1 + doc1.maxId, pid.2))).map PdfObj.reference by
              rw [hnewKids, List.map_append, List.map_map]
              rfl]
          exact hflatOut
        intro id hid
        rcases List.mem_append.1 hid with h' | h'
        · obtain ⟨es, hes, htyp⟩ := hflat id h'
          have hidbound : id.1 ≤ doc1.maxId := by
            refine hkb1 id (mem_keys_of_alookup_isSome doc1.objects id ?_)
            rw [show doc1.get id = alookup doc1.objects id from rfl] at hes
            rw [hes]
            rfl
          have hidne : tpid ≠ id := by
            intro he
            rw [← he] at hes
            rw [hnode] at hes
            have hee : es₁ = es := by
              have := Option.some.injEq _ _ ▸ hes
              cases this
              rfl
            rw [← hee] at htyp
            rw [htype₁] at htyp
            simp at htyp
          refine ⟨es, ?_, htyp⟩
          rw [← h, Document.get_set_ne _ _ _ _ hidne,
            show ({ tgt' with maxId := doc1.maxId + doc2.maxId } : Document).get id =
              tgt'.get id from rfl, s3 id hidbound]
          exact hes
        · rcases List.mem_map.1 h' with ⟨pid, hpid, hpe⟩
          obtain ⟨esP, he₁, -, htyp⟩ := hpageOut pid hpid
          exact ⟨esP, hpe ▸ he₁, htyp⟩
      refine ⟨hgp1, ?_, ?_, ?_⟩
      · rw [hgpo, hgp1, List.length_append, List.length_map]
      · refine ⟨_, hout_tpid, ?_⟩
        rw [alookup_aset_self]
        have hlen : (pageIds₁.map PdfObj.reference ++ newKids).length =
            (getPages doc1).length + (getPages doc2).length := by
          rw [List.length_append, List.length_map, hgp1, hnewKids, List.length_map]
        rw [hlen]
        push_cast
        rfl
      · intro pid hpid
        obtain ⟨esP, he₁, he₂, -⟩ := hpageOut pid hpid
        exact ⟨esP, he₁, he₂⟩

/-- The document `merge_many_core docNested2 [docFlat1]` produces
(checked by `rfl` in the counterexample below): the nested first
document's root node keeps Count 2 although the merged document holds
three pages. -/
def mergedNested : Document :=
  { objects :=
      [((1, 0), .dictionary [("Type", .name "Pages"),
                             ("Kids", .array [.reference (2, 0), .reference (6, 0)]),
                             ("Count", .integer 2)]),
       ((2, 0), .dictionary [("Type", .name "Pages"),
                             ("Kids", .array [.reference (3, 0), .reference (4, 0)]),
                             ("Count", .integer 2)]),
       ((3, 0), .dictionary [("Type", .name "Page"),
                             ("Parent", .reference (2, 0))]),
       ((4, 0), .dictionary [("Type", .name "Page"),
                             ("Parent", .reference (2, 0))]),
       ((5, 0), .dictionary [("Type", .name "Catalog"),
                             ("Pages", .reference (1, 0))]),
       ((6, 0), .dictionary [("Type", .name "Page"),
                             ("Parent", .reference (1, 0)),
                             ("Contents", .reference (9, 0))]),
       ((7, 0), .dictionary [("Type", .name "Pages"),
                             ("Kids", .array [.reference (6, 0)]),
                             ("Count", .integer 1)]),
       ((9, 0), .stream [("Length", .integer 3)] [1, 2, 3])],
    trailer := [("Root", .reference (5, 0))], maxId := 9 }

/-- C3 counterexample: merging the two-page document `docNested2` — whose
page tree is nested, the root node having one intermediate node as its
only kid — with the one-page `docFlat1` succeeds and yields a document
with 2 + 1 = 3 pages, but the root page-tree node's `Count` field stores
2, not 3: the code sets Count to the root's Kids length, which counts
tree nodes, not pages. So the claim as stated (Count = a + b for every
successful two-document merge) is false. -/
theorem C3_count_counterexample :
    merge_many_core docNested2 [docFlat1] = .ok mergedNested ∧
    (getPages docNested2).length = 2 ∧
    (getPages docFlat1).length = 1 ∧
    (getPages mergedNested).length = 3 ∧
    mergedNested.get (1, 0) = some (.dictionary
      [("Type", .name "Pages"),
       ("Kids", .array [.reference (2, 0), .reference (6, 0)]),
       ("Count", .integer 2)]) ∧
    rootPagesRef docNested2 = some (1, 0) ∧
    (2 : Int) ≠ 2 + 1 :=
  ⟨rfl, rfl, rfl, rfl, rfl, rfl, by decide⟩

/-- The document `merge_many_core docFlat2 [docFlat1]` produces (checked
by `rfl` in the C3 witness below). -/
def mergedFlat : Document :=
  { objects :=
      [((1, 0), .dictionary [("Type", .name "Catalog"),
                             ("Pages", .reference (2, 0))]),
       ((2, 0), .dictionary [("Type", .name "Pages"),
                             ("Kids", .array [.reference (3, 0), .reference (4, 0),
                                              .reference (5, 0)]),
                             ("Count", .integer 3)]),
       ((3, 0), .dictionary [("Type", .name "Page"),
                             ("Parent", .reference (2, 0))]),
       ((4, 0), .dictionary [("Type", .name "Page"),
                             ("Parent", .reference (2, 0))]),
       ((5, 0), .dictionary [("Type", .name "Page"),
                             ("Parent", .reference (2, 0)),
                             ("Contents", .reference (8, 0))]),
       ((6, 0), .dictionary [("Type", .name "Pages"),
                             ("Kids", .array [.reference (5, 0)]),
                             ("Count", .integer 1)]),
       ((8, 0), .stream [("Length", .integer 3)] [1, 2, 3])],
    trailer := [("Root", .reference (1, 0))], maxId := 8 }

theorem C3_witness :
    getPages docFlat2 = [(3, 0), (4, 0)] ∧
    (getPages mergedFlat).length =
      (getPages docFlat2).length + (getPages docFlat1).length ∧
    (∃ es', mergedFlat.get (2, 0) = some (.dictionary es') ∧
      alookup es' "Count" = some (.integer
        ((getPages docFlat2).length + (getPages docFlat1).length))) ∧
    (∀ pid ∈ getPages docFlat1, ∃ esP,
      mergedFlat.get (pid.1 + docFlat2.maxId, pid.2) = some (.dictionary esP) ∧
      alookup esP "Parent" = some (.reference (2, 0))) :=
  C3_merge_pages_amended docFlat2 docFlat1 mergedFlat (1, 0) (2, 0)
    [("Type", .name "Catalog"), ("Pages", .reference (2, 0))]
    [("Type", .name "Pages"),
     ("Kids", .array [.reference (3, 0), .reference (4, 0)]),
     ("Count", .integer 2)]
    [(3, 0), (4, 0)]
    rfl rfl rfl (by decide) rfl rfl rfl
    (by
      intro id hid
      simp only [List.mem_cons, List.not_mem_nil, or_false] at hid
      rcases hid with rfl | rfl
      · exact ⟨_, rfl, rfl⟩
      · exact ⟨_, rfl, rfl⟩)
    (by decide) (by decide) (by decide) rfl

theorem alookup_eq_none_of_not_mem_keys {α β : Type} [DecidableEq α]
    (l : List (α × β)) (k : α) (h : k ∉ l.map (·.1)) : alookup l k = none := by
  cases hl : alookup l k with
  | none => rfl
  | some v =>
    exact absurd (mem_keys_of_alookup_isSome l k (by rw [hl]; rfl)) h

/-- Invariant of the per-source-document merge loop, provided the
counter's running total stays below `2 ^ 32` (so the `u32` counter and
shift additions never wrap): if every identifier of the target is
bounded by the running counter and every source document has identifiers
in `1 .. maxId`, then after the loop every identifier of the final
target is bounded by the final counter, the counter never decreases,
objects at identifiers within the initial counter (in particular, the
whole initial target) are untouched, presence is monotone, and the
trailer is unchanged. -/
theorem mergeLoop_inv (tpid : ObjectId) :
    ∀ (docs : List Document) (tgt : Document) (curMax : Nat) (kids : List PdfObj)
      (tgt' : Document) (curMax' : Nat) (kids' : List PdfObj),
      mergeLoop tpid tgt curMax kids docs = .ok (tgt', curMax', kids') →
      (∀ d ∈ docs, ∀ key ∈ d.objects.map (·.1), 1 ≤ key.1 ∧ key.1 ≤ d.maxId) →
      curMax + (docs.map Document.maxId).sum < 2 ^ 32 →
      (∀ key ∈ tgt.objects.map (·.1), key.1 ≤ curMax) →
      (∀ key ∈ tgt'.objects.map (·.1), key.1 ≤ curMax') ∧
      curMax ≤ curMax' ∧
      (∀ id : ObjectId, id.1 ≤ curMax → tgt'.get id = tgt.get id) ∧
      (∀ id : ObjectId, (tgt.get id).isSome → (tgt'.get id).isSome) ∧
      tgt'.trailer = tgt.trailer := by
  intro docs
  induction docs with
  | nil =>
    intro tgt curMax kids tgt' curMax' kids' h hdocs hsum hkb
    simp only [mergeLoop, Except.ok.injEq, Prod.mk.injEq] at h
    obtain ⟨rfl, rfl, rfl⟩ := h
    exact ⟨hkb, le_refl _, fun id _ => rfl, fun id hs => hs, rfl⟩
  | cons src rest ih =>
    intro tgt curMax kids tgt' curMax' kids' h hdocs hsum hkb
    simp only [mergeLoop] at h
    cases hms : merge_and_shift_objects tgt src curMax tpid with
    | error e => rw [hms] at h; simp at h
    | ok res =>
      obtain ⟨tgt₂, m⟩ := res
      rw [hms] at h
      dsimp only at h
      cases hcnk : collectNewKids m (getPages src) with
      | error e => rw [hcnk] at h; simp at h
      | ok newRefs =>
        rw [hcnk] at h
        dsimp only at h
        have hsum' : curMax + src.maxId + (rest.map Document.maxId).sum
            < 2 ^ 32 := by
          simp only [List.map_cons, List.sum_cons] at hsum
          omega
        have hmod : (curMax + src.maxId) % 2 ^ 32 = curMax + src.maxId :=
          Nat.mod_eq_of_lt (by omega)
        rw [hmod] at h
        have hsrc1 : ∀ key ∈ src.objects.map (·.1), 1 ≤ key.1 :=
          fun key hk => (hdocs src (List.mem_cons_self _ _) key hk).1
        have hnw : ∀ key ∈ src.objects.map (·.1), key.1 + curMax < 2 ^ 32 := by
          intro key hk
          have := (hdocs src (List.mem_cons_self _ _) key hk).2
          omega
        obtain ⟨s1, s2, s3, s4, s5, s6, s7, s8, s9, s10⟩ :=
          merge_and_shift_ok tgt src curMax tpid tgt₂ m hms hsrc1 hnw
        have hkb₂ : ∀ key ∈ tgt₂.objects.map (·.1),
            key.1 ≤ curMax + src.maxId := by
          intro key hk
          rcases s7 key hk with h' | h'
          · exact le_trans (hkb key h') (Nat.le_add_right _ _)
          · rcases List.mem_map.1 h' with ⟨p, hp, hpk⟩
            have hm1 : (alookup m p.1).isSome := by
              have := alookup_isSome_of_mem m p hp
              exact this
            have hsome : (src.get p.1).isSome := s4 p.1 hm1
            have hbound : p.1.1 ≤ src.maxId :=
              (hdocs src (List.mem_cons_self _ _) p.1
                (mem_keys_of_alookup_isSome src.objects p.1 hsome)).2
            rw [← hpk, s1 p hp]
            show p.1.1 + curMax ≤ curMax + src.maxId
            omega
        obtain ⟨c1, c2, c3, c4, c5⟩ :=
          ih tgt₂ (curMax + src.maxId) (kids ++ newRefs) tgt' curMax' kids' h
            (fun d hd => hdocs d (List.mem_cons_of_mem _ hd)) hsum' hkb₂
        refine ⟨c1, le_trans (Nat.le_add_right _ _) c2, ?_, ?_, ?_⟩
        · intro id hid
          rw [c3 id (le_trans hid (Nat.le_add_right _ _)), s3 id hid]
        · intro id hs
          exact c4 id (s6 id hs)
        · rw [c5, s8]

/-- A flat one-page document that also carries an unreferenced junk
object at the high number 9, so its `max_id` (9) strictly exceeds every
identifier its page closure will place in a merge target. -/
def d2junk : Document :=
  { objects :=
      [((1, 0), .dictionary [("Type", .name "Page"), ("Parent", .reference (2, 0))]),
       ((2, 0), .dictionary [("Type", .name "Pages"),
                             ("Kids", .array [.reference (1, 0)]),
                             ("Count", .integer 1)]),
       ((3, 0), .dictionary [("Type", .name "Catalog"),
                             ("Pages", .reference (2, 0))]),
       ((9, 0), .null)],
    trailer := [("Root", .reference (3, 0))], maxId := 9 }

/-- The intermediate target after `mergeLoop` has transplanted `d2junk`
into `docFlat1` (checked by `rfl` in the C4 counterexample): the largest
identifier placed so far is 6, while the running counter is already 13. -/
def midJunk : Document :=
  { objects :=
      [((1, 0), .dictionary [("Type", .name "Page"),
                             ("Parent", .reference (2, 0)),
                             ("Contents", .reference (4, 0))]),
       ((2, 0), .dictionary [("Type", .name "Pages"),
                             ("Kids", .array [.reference (1, 0)]),
                             ("Count", .integer 1)]),
       ((3, 0), .dictionary [("Type", .name "Catalog"),
                             ("Pages", .reference (2, 0))]),
       ((4, 0), .stream [("Length", .integer 3)] [1, 2, 3]),
       ((5, 0), .dictionary [("Type", .name "Page"),
                             ("Parent", .reference (2, 0))]),
       ((6, 0), .dictionary [("Type", .name "Pages"),
                             ("Kids", .array [.reference (5, 0)]),
                             ("Count", .integer 1)])],
    trailer := [("Root", .reference (3, 0))], maxId := 4 }

/-- The document `merge_many_core docFlat1 [d2junk, docFlat1]` produces
(checked by `rfl` in the C4 counterexample). -/
def mergedThree : Document :=
  { objects :=
      [((1, 0), .dictionary [("Type", .name "Page"),
                             ("Parent", .reference (2, 0)),
                             ("Contents", .reference (4, 0))]),
       ((2, 0), .dictionary [("Type", .name "Pages"),
                             ("Kids", .array [.reference (1, 0), .reference (5, 0),
                                              .reference (14, 0)]),
                             ("Count", .integer 3)]),
       ((3, 0), .dictionary [("Type", .name "Catalog"),
                             ("Pages", .reference (2, 0))]),
       ((4, 0), .stream [("Length", .integer 3)] [1, 2, 3]),
       ((5, 0), .dictionary [("Type", .name "Page"),
                             ("Parent", .reference (2, 0))]),
       ((6, 0), .dictionary [("Type", .name "Pages"),
                             ("Kids", .array [.reference (5, 0)]),
                             ("Count", .integer 1)]),
       ((14, 0), .dictionary [("Type", .name "Page"),
                              ("Parent", .reference (2, 0)),
                              ("Contents", .reference (17, 0))]),
       ((15, 0), .dictionary [("Type", .name "Pages"),
                              ("Kids", .array [.reference (14, 0)]),
                              ("Count", .integer 1)]),
       ((17, 0), .stream [("Length", .integer 3)] [1, 2, 3])],
    trailer := [("Root", .reference (3, 0))], maxId := 17 }

/-- C4 counterexample: the offset applied to a subsequent source document
is NOT the running maximum identifier already placed in the target — it
is a running counter advanced by each source's `max_id`, junk included.
Merging `docFlat1` with `d2junk` and then `docFlat1` again: after the
`d2junk` step every identifier placed in the target is ≤ 6, yet the
counter is 13, so the third document's page (old number 1) is inserted
at (14, 0) = (1 + 13, 0) and nothing sits at (7, 0) = (1 + 6, 0). So
the claim's description of the offset, as stated, is false (the
no-collision and counter-bound consequences still hold — see the
amended theorem). -/
theorem C4_offset_counterexample :
    mergeLoop (2, 0) docFlat1 docFlat1.maxId [] [d2junk] =
      .ok (midJunk, 13, [.reference (5, 0)]) ∧
    midJunk.objects.map (fun p => p.1.1) = [1, 2, 3, 4, 5, 6] ∧
    merge_many_core docFlat1 [d2junk, docFlat1] = .ok mergedThree ∧
    mergedThree.get (7, 0) = none ∧
    mergedThree.get (14, 0) = some (.dictionary
      [("Type", .name "Page"), ("Parent", .reference (2, 0)),
       ("Contents", .reference (17, 0))]) ∧
    (1 + 6 : Nat) = 7 :=
  ⟨rfl, rfl, rfl, rfl, rfl, rfl⟩

/-- C4 (amended): every object copied from a subsequent source document
is inserted under `(old.number + offset, old.generation)` where `offset`
is the running identifier counter (the first document's `max_id` advanced
by each prior source's `max_id`, a `u32` that does not wrap as long as
the running total stays below `2 ^ 32`), which bounds every identifier
already placed; hence no inserted identifier collides with an identifier
already present (first conjunct, at the per-document step: the insertion
site of every mapped object was vacant in the step's target). After the
whole merge the final counter is ≥ the largest identifier present, is ≥
the first document's counter, and the first document's objects other than
the root tree node sit unchanged at their original identifiers. -/
theorem C4_identifier_shift_amended
    (first : Document) (rest : List Document) (out : Document)
    (hkb1 : ∀ key ∈ first.objects.map (·.1), key.1 ≤ first.maxId)
    (hkbr : ∀ d ∈ rest, ∀ key ∈ d.objects.map (·.1), 1 ≤ key.1 ∧ key.1 ≤ d.maxId)
    (hovf : first.maxId + (rest.map Document.maxId).sum < 2 ^ 32)
    (h : merge_many_core first rest = .ok out) :
    (∀ (tgt src : Document) (off : Nat) (tpid : ObjectId)
       (tgt' : Document) (m : List (ObjectId × ObjectId)),
       merge_and_shift_objects tgt src off tpid = .ok (tgt', m) →
       (∀ key ∈ src.objects.map (·.1), 1 ≤ key.1) →
       (∀ key ∈ src.objects.map (·.1), key.1 + off < 2 ^ 32) →
       (∀ key ∈ tgt.objects.map (·.1), key.1 ≤ off) →
       ∀ p ∈ m, p.2 = (p.1.1 + off, p.1.2) ∧ tgt.get p.2 = none) ∧
    (∀ key ∈ out.objects.map (·.1), key.1 ≤ out.maxId) ∧
    first.maxId ≤ out.maxId ∧
    (∃ tpid, rootPagesRef first = some tpid ∧
      ∀ id : ObjectId, id ≠ tpid → (first.get id).isSome →
        out.get id = first.get id) := by
  refine ⟨?_, ?_⟩
  · intro tgt src off tpid tgt' m hms hsrc1 hnw htgtb p hp
    obtain ⟨s1, -, -, s4, -⟩ :=
      merge_and_shift_ok tgt src off tpid tgt' m hms hsrc1 hnw
    have hsh := s1 p hp
    have hm1 : (alookup m p.1).isSome := alookup_isSome_of_mem m p hp
    have hsome : (src.get p.1).isSome := s4 p.1 hm1
    have hpos : 1 ≤ p.1.1 :=
      hsrc1 p.1 (mem_keys_of_alookup_isSome src.objects p.1 hsome)
    refine ⟨hsh, alookup_eq_none_of_not_mem_keys tgt.objects p.2 ?_⟩
    intro hmem
    have := htgtb p.2 hmem
    rw [hsh] at this
    have h1 : p.1.1 + off ≤ off := this
    omega
  · simp only [merge_many_core] at h
    cases hrpr : rootPagesRef first with
    | none => rw [hrpr] at h; simp at h
    | some tpid =>
      rw [hrpr] at h
      dsimp only at h
      cases hml : mergeLoop tpid first first.maxId [] rest with
      | error e => rw [hml] at h; simp at h
      | ok res =>
        obtain ⟨tgt, curMax, newKids⟩ := res
        rw [hml] at h
        dsimp only at h
        obtain ⟨c1, c2, c3, c4, c5⟩ :=
          mergeLoop_inv tpid rest first first.maxId [] tgt curMax newKids hml
            hkbr hovf hkb1
        cases hg : ({ tgt with maxId := curMax } : Document).get tpid with
        | none => rw [hg] at h; simp at h
        | some o =>
          rw [hg] at h
          cases o with
          | dictionary es =>
            dsimp only at h
            cases hk : alookup es "Kids" with
            | none => rw [hk] at h; simp at h
            | some ok =>
              rw [hk] at h
              cases ok with
              | array kids =>
                dsimp only at h
                simp only [Except.ok.injEq] at h
                have htpmem : tpid ∈ tgt.objects.map (·.1) := by
                  refine mem_keys_of_alookup_isSome tgt.objects tpid ?_
                  rw [show alookup tgt.objects tpid =
                    ({ tgt with maxId := curMax } : Document).get tpid from rfl, hg]
                  rfl
                refine ⟨?_, ?_, ?_⟩
                · intro key hkey
                  have hkeys : key ∈ (aset tgt.objects tpid
                      (.dictionary (aset (aset es "Kids"
                        (.array (kids ++ newKids)))
                        "Count" (.integer (kids ++ newKids).length)))).map (·.1) := by
                    rw [← h] at hkey
                    exact hkey
                  have hmax : out.maxId = curMax := by rw [← h]; rfl
                  rw [hmax]
                  rcases keys_aset _ _ _ _ hkeys with rfl | h'
                  · exact c1 key htpmem
                  · exact c1 key h'
                · have hmax : out.maxId = curMax := by rw [← h]; rfl
                  rw [hmax]
                  exact c2
                · refine ⟨tpid, rfl, ?_⟩
                  intro id hne hsome
                  have hTne : tpid ≠ id := fun he => hne he.symm
                  have hbound : id.1 ≤ first.maxId :=
                    hkb1 id (mem_keys_of_alookup_isSome first.objects id hsome)
                  rw [← h, Document.get_set_ne _ _ _ _ hTne,
                    show ({ tgt with maxId := curMax } : Document).get id =
                      tgt.get id from rfl]
                  exact c3 id hbound
              | null => simp at h
              | boolean b => simp at h
              | integer i => simp at h
              | real r => simp at h
              | name n => simp at h
              | str s ty => simp at h
              | dictionary es2 => simp at h
              | stream es2 c => simp at h
              | reference rid => simp at h
          | null => dsimp only at h; simp at h
          | boolean b => dsimp only at h; simp at h
          | integer i => dsimp only at h; simp at h
          | real r => dsimp only at h; simp at h
          | name n => dsimp only at h; simp at h
          | str s ty => dsimp only at h; simp at h
          | array xs => dsimp only at h; simp at h
          | stream es2 c => dsimp only at h; simp at h
          | reference rid => dsimp only at h; simp at h

theorem C4_witness :
    (∀ (tgt src : Document) (off : Nat) (tpid : ObjectId)
       (tgt' : Document) (m : List (ObjectId × ObjectId)),
       merge_and_shift_objects tgt src off tpid = .ok (tgt', m) →
       (∀ key ∈ src.objects.map (·.1), 1 ≤ key.1) →
       (∀ key ∈ src.objects.map (·.1), key.1 + off < 2 ^ 32) →
       (∀ key ∈ tgt.objects.map (·.1), key.1 ≤ off) →
       ∀ p ∈ m, p.2 = (p.1.1 + off, p.1.2) ∧ tgt.get p.2 = none) ∧
    (∀ key ∈ mergedThree.objects.map (·.1), key.1 ≤ mergedThree.maxId) ∧
    docFlat1.maxId ≤ mergedThree.maxId ∧
    (∃ tpid, rootPagesRef docFlat1 = some tpid ∧
      ∀ id : ObjectId, id ≠ tpid → (docFlat1.get id).isSome →
        mergedThree.get id = docFlat1.get id) :=
  C4_identifier_shift_amended docFlat1 [d2junk, docFlat1] mergedThree
    (by decide)
    (by
      intro d hd
      simp only [List.mem_cons, List.not_mem_nil, or_false] at hd
      rcases hd with rfl | rfl
      · decide
      · decide)
    (by decide)
    rfl
